import Mathlib

/-!
Shallow embedding of the Colombian-law ingestion pipeline
(`src/scripts/lib/parser.ts`, `src/scripts/ingest.ts`, and the rate-limited
fetcher) and proofs about it.

Strings are embedded as `List Char` (one element per Unicode code point).
JavaScript's `String.prototype.length` counts UTF-16 code units, so a
dedicated `jsStrLen` is used wherever the source reads `.length`.
Regular expressions from the source are translated into explicit matching
functions whose search order mirrors the JavaScript engine (leftmost match,
greedy/lazy quantifiers as written).  Iterative scans use a fuel argument
(always called with fuel strictly larger than the number of remaining
characters, so the fuel never runs out) to keep every definition
structurally recursive and kernel-reducible.
-/

set_option maxRecDepth 20000

abbrev Str := List Char

def str (s : String) : Str := s.data

deriving instance DecidableEq for Except

/-- JavaScript `\s` character class (WhiteSpace plus LineTerminator). -/
def isJsWs (c : Char) : Bool :=
  let n := c.toNat
  n == 0x20 || n == 0x09 || n == 0x0a || n == 0x0b || n == 0x0c || n == 0x0d ||
  n == 0xa0 || n == 0x1680 || (0x2000 ≤ n && n ≤ 0x200a) || n == 0x2028 ||
  n == 0x2029 || n == 0x202f || n == 0x205f || n == 0x3000 || n == 0xfeff

/-- JavaScript line terminators (the characters `.` does not match, and the
positions at which a multiline `$` matches). -/
def isLineTerm (c : Char) : Bool :=
  let n := c.toNat
  n == 0x0a || n == 0x0d || n == 0x2028 || n == 0x2029

def isDigitC (c : Char) : Bool := '0' ≤ c && c ≤ '9'

def isHexC (c : Char) : Bool :=
  isDigitC c || ('a' ≤ c && c ≤ 'f') || ('A' ≤ c && c ≤ 'F')

def isAsciiLetter (c : Char) : Bool :=
  ('a' ≤ c && c ≤ 'z') || ('A' ≤ c && c ≤ 'Z')

/-- JavaScript `\w` character class. -/
def isWordC (c : Char) : Bool := isAsciiLetter c || isDigitC c || c == '_'

/-- Number of UTF-16 code units a code point occupies in a JavaScript string. -/
def jsCharWidth (c : Char) : Nat := if c.toNat ≥ 0x10000 then 2 else 1

/-- JavaScript `String.prototype.length` (UTF-16 code units). -/
def jsStrLen (s : Str) : Nat := (s.map jsCharWidth).sum

/-- Case folding used to model case-insensitive (`i`-flag) matching and
`toLowerCase` on the character ranges this corpus can contain: ASCII and the
Latin-1 letters (`Á` → `á`, `Ñ` → `ñ`, ...).  Other code points are kept
unchanged (they are case-less in the inputs that occur here). -/
def lowerChar (c : Char) : Char :=
  let n := c.toNat
  if 65 ≤ n && n ≤ 90 then Char.ofNat (n + 32)
  else if 192 ≤ n && n ≤ 222 && n != 215 then Char.ofNat (n + 32)
  else c

def lowerStr (s : Str) : Str := s.map lowerChar

/-- Substring test (JavaScript `String.prototype.includes`). -/
def containsSub (needle : Str) : Str → Bool
  | [] => needle.isEmpty
  | c :: rest => needle.isPrefixOf (c :: rest) || containsSub needle rest

/-- Case-insensitively strip `pat` (already lower-case) from the front of `s`,
returning the remainder. -/
def stripCi (pat : Str) (s : Str) : Option Str :=
  match pat, s with
  | [], s => some s
  | _ :: _, [] => none
  | p :: ps, c :: cs => if lowerChar c == p then stripCi ps cs else none

/-- Case-sensitively strip `pat` from the front of `s`. -/
def stripCs (pat : Str) (s : Str) : Option Str :=
  match pat, s with
  | [], s => some s
  | _ :: _, [] => none
  | p :: ps, c :: cs => if c == p then stripCs ps cs else none

def firstSome {α β : Type} (f : α → Option β) : List α → Option β
  | [] => none
  | a :: rest =>
    match f a with
    | some b => some b
    | none => firstSome f rest

/-- Splits `(k, s.drop k)` of the maximal prefix of `s` satisfying `p`,
longest first (the try order of a greedy `[...]*` quantifier). -/
def greedySplits (p : Char → Bool) (s : Str) : List (Nat × Str) :=
  let m := (s.takeWhile p).length
  ((List.range (m + 1)).reverse).map (fun k => (k, s.drop k))

def digitsToNat (s : Str) : Nat :=
  s.foldl (fun acc c => acc * 10 + (c.toNat - 48)) 0

def hexVal (c : Char) : Nat :=
  if isDigitC c then c.toNat - 48
  else if 'a' ≤ c && c ≤ 'f' then c.toNat - 87
  else c.toNat - 55

def hexToNat (s : Str) : Nat :=
  s.foldl (fun acc c => acc * 16 + hexVal c) 0

/-- Decimal renders of a `Nat` (template literals such as `HTTP ${status}`). -/
def natStr (n : Nat) : Str := (Nat.repr n).data

/-- `normalizeWhitespace`, `parser.ts` lines 67-74: collapse runs of space/tab
to one space.  The `prev` flag records whether the previous character was part
of such a run. -/
def collapseSpTab : Bool → Str → Str
  | _, [] => []
  | prev, c :: rest =>
    if c == ' ' || c == '\t' then
      if prev then collapseSpTab true rest else ' ' :: collapseSpTab true rest
    else c :: collapseSpTab false rest

/-- Collapse runs of three or more newlines to exactly two (`\n{3,}` → two
newlines); `k` counts the newlines already emitted from the current run. -/
def collapseNl : Nat → Str → Str
  | _, [] => []
  | k, c :: rest =>
    if c == '\n' then
      if k < 2 then '\n' :: collapseNl (k + 1) rest else collapseNl k rest
    else c :: collapseNl 0 rest

/-- JavaScript `String.prototype.trim` (strips `\s` on both ends). -/
def jsTrim (s : Str) : Str :=
  ((s.dropWhile isJsWs).reverse.dropWhile isJsWs).reverse

/-- `normalizeWhitespace` from `parser.ts`: NBSP → space, drop `\r`, collapse
space/tab runs, collapse newline runs of three or more, trim. -/
def normalizeWhitespace (text : Str) : Str :=
  jsTrim (collapseNl 0 (collapseSpTab false
    (((text.map (fun c => if c.toNat == 0xa0 then ' ' else c)).filter
      (fun c => c != '\r')))))

/-- `stripTags`: global replacement of `<[^>]+>` by a single space.  A `<`
with no later `>` (or an immediately following `>`) is not part of any match
and is kept. -/
def stripTagsGo : Nat → Str → Str
  | 0, s => s
  | _ + 1, [] => []
  | fuel + 1, c :: rest =>
    if c == '<' then
      match rest.findIdx? (fun d => d == '>') with
      | none => c :: rest
      | some 0 => c :: stripTagsGo fuel rest
      | some (k + 1) => ' ' :: stripTagsGo fuel (rest.drop (k + 2))
    else c :: stripTagsGo fuel rest

def stripTags (html : Str) : Str := stripTagsGo (html.length + 1) html

/-- Threshold above which a decimal literal rounds to `Infinity` as an IEEE
double (`Number.isFinite` then fails and the reference is replaced by the
empty string instead of reaching `String.fromCodePoint`). -/
def floatInfThreshold : Nat := 2 ^ 1024 - 2 ^ 970

/-- `String.fromCodePoint` on one code point: throws `RangeError` above
`0x10FFFF`; the caller has already replaced non-finite inputs by `''`.
Surrogate code points (valid arguments in JavaScript, not representable as a
Lean `Char`) are sent through `Char.ofNat`; no statement below depends on
them. -/
def jsFromCodePoint (n : Nat) : Except Str Str :=
  if n ≥ floatInfThreshold then Except.ok []
  else if n > 0x10FFFF then Except.error (str "RangeError: Invalid code point")
  else Except.ok [Char.ofNat n]

/-- First replacement pass of `decodeHtmlEntities`: `&#(\d+);` via
`Number`/`String.fromCodePoint`.  A thrown `RangeError` aborts the whole
decode, as an exception thrown from a `replace` callback does. -/
def decodeDecGo : Nat → Str → Except Str Str
  | 0, s => Except.ok s
  | _ + 1, [] => Except.ok []
  | fuel + 1, c :: rest =>
    if c == '&' then
      match rest with
      | '#' :: rest2 =>
        let ds := rest2.takeWhile isDigitC
        let rest3 := rest2.dropWhile isDigitC
        match ds, rest3 with
        | _ :: _, ';' :: rest4 => do
          let rep ← jsFromCodePoint (digitsToNat ds)
          let tail ← decodeDecGo fuel rest4
          pure (rep ++ tail)
        | _, _ => (decodeDecGo fuel rest).map (fun t => c :: t)
      | _ => (decodeDecGo fuel rest).map (fun t => c :: t)
    else (decodeDecGo fuel rest).map (fun t => c :: t)

/-- Second pass: `&#x([0-9a-fA-F]+);` via `Number.parseInt(_, 16)`. -/
def decodeHexGo : Nat → Str → Except Str Str
  | 0, s => Except.ok s
  | _ + 1, [] => Except.ok []
  | fuel + 1, c :: rest =>
    if c == '&' then
      match rest with
      | '#' :: 'x' :: rest2 =>
        let ds := rest2.takeWhile isHexC
        let rest3 := rest2.dropWhile isHexC
        match ds, rest3 with
        | _ :: _, ';' :: rest4 => do
          let rep ← jsFromCodePoint (hexToNat ds)
          let tail ← decodeHexGo fuel rest4
          pure (rep ++ tail)
        | _, _ => (decodeHexGo fuel rest).map (fun t => c :: t)
      | _ => (decodeHexGo fuel rest).map (fun t => c :: t)
    else (decodeHexGo fuel rest).map (fun t => c :: t)

/-- The `named` lookup table of `decodeHtmlEntities` (`parser.ts` 81-111). -/
def namedEntities : List (Str × Str) :=
  [ (str "amp", str "&"), (str "apos", str "'"), (str "#39", str "'"),
    (str "quot", str "\""), (str "nbsp", str " "), (str "lt", str "<"),
    (str "gt", str ">"), (str "iacute", str "í"), (str "Iacute", str "Í"),
    (str "aacute", str "á"), (str "Aacute", str "Á"), (str "eacute", str "é"),
    (str "Eacute", str "É"), (str "oacute", str "ó"), (str "Oacute", str "Ó"),
    (str "uacute", str "ú"), (str "Uacute", str "Ú"), (str "ntilde", str "ñ"),
    (str "Ntilde", str "Ñ"), (str "ordm", str "º"), (str "deg", str "°"),
    (str "iquest", str "¿"), (str "mdash", str "-"), (str "ndash", str "-"),
    (str "rsquo", str "'"), (str "lsquo", str "'"), (str "rdquo", str "\""),
    (str "ldquo", str "\""), (str "bull", str "•") ]

def isEntChar (c : Char) : Bool := isAsciiLetter c || isDigitC c || c == '#'

/-- Third pass: `&([A-Za-z0-9#]+);`, keeping the full match on lookup miss. -/
def decodeNamedGo : Nat → Str → Str
  | 0, s => s
  | _ + 1, [] => []
  | fuel + 1, c :: rest =>
    if c == '&' then
      let nm := rest.takeWhile isEntChar
      let rest2 := rest.dropWhile isEntChar
      match nm, rest2 with
      | _ :: _, ';' :: rest3 =>
        (match List.lookup nm namedEntities with
         | some rep => rep
         | none => '&' :: (nm ++ [';'])) ++ decodeNamedGo fuel rest3
      | _, _ => c :: decodeNamedGo fuel rest
    else c :: decodeNamedGo fuel rest

/-- `decodeHtmlEntities`, `parser.ts` 80-123: the three replacement passes in
source order.  The only failure is the `RangeError` of `String.fromCodePoint`
on a numeric reference above `0x10FFFF`. -/
def decodeHtmlEntities (text : Str) : Except Str Str := do
  let a ← decodeDecGo (text.length + 1) text
  let b ← decodeHexGo (a.length + 1) a
  pure (decodeNamedGo (b.length + 1) b)

def classNameL : Str := str "descripcion-contenido"

/-- Attempt of the `extractClassBlock` opening regex
`<div[^>]*class=["'][^"']*\bdescripcion-contenido\b[^"']*["'][^>]*>` (flag `i`,
the class name fixed to the only call site's `'descripcion-contenido'`) at the
start of `s`; returns the remainder after the matched opening tag.  Greedy
quantifiers try the longest consumption first, as the engine does. -/
def matchOpenDivAt (s : Str) : Option Str :=
  match stripCi (str "<div") s with
  | none => none
  | some afterDiv =>
    firstSome (fun kr =>
      match stripCi (str "class=") kr.2 with
      | none => none
      | some r1 =>
        match r1 with
        | q :: r2 =>
          if q == '"' || q == '\'' then
            firstSome (fun kr2 =>
              let prevC := if kr2.1 == 0 then q else (r2.take kr2.1).getLastD q
              if isWordC prevC then none
              else
                match stripCi classNameL kr2.2 with
                | none => none
                | some afterName =>
                  if !afterName.isEmpty && isWordC (afterName.headD ' ') then
                    none
                  else
                    firstSome (fun kr3 =>
                      match kr3.2 with
                      | q2 :: r4 =>
                        if q2 == '"' || q2 == '\'' then
                          let run := r4.takeWhile (fun d => d != '>')
                          match r4.drop run.length with
                          | '>' :: r5 => some r5
                          | _ => none
                        else none
                      | [] => none)
                      (greedySplits (fun d => d != '"' && d != '\'') afterName))
              (greedySplits (fun d => d != '"' && d != '\'') r2)
          else none
        | [] => none)
      (greedySplits (fun d => d != '>') afterDiv)

/-- Leftmost search for the opening `div`; returns the remainder after the
opening tag (the position `openTagEnd` of `extractClassBlock`). -/
def findOpenDivGo : Nat → Str → Option Str
  | 0, _ => none
  | _ + 1, [] => none
  | fuel + 1, c :: rest =>
    match matchOpenDivAt (c :: rest) with
    | some r => some r
    | none => findOpenDivGo fuel rest

/-- One attempt of `<\/?div\b[^>]*>` (flag `gi`) at the start of `s`:
`(isClose, remainder after the tag)`. -/
def matchDivTag (s : Str) : Option (Bool × Str) :=
  match s with
  | '<' :: r1 =>
    let pr : Bool × Str :=
      match r1 with
      | '/' :: r => (true, r)
      | _ => (false, r1)
    match stripCi (str "div") pr.2 with
    | none => none
    | some r3 =>
      if !r3.isEmpty && isWordC (r3.headD ' ') then none
      else
        let run := r3.takeWhile (fun d => d != '>')
        match r3.drop run.length with
        | '>' :: r4 => some (pr.1, r4)
        | _ => none
  | _ => none

/-- Depth-tracking scan of `extractClassBlock` (`parser.ts` 135-152): walk the
`div` tags after the opening tag; when the depth returns to zero, the inner
slice (everything before that closing tag) is returned; with no such closing
tag the result is `none` (the source returns `null`). -/
def scanDivDepth : Nat → Nat → Str → Option Str
  | 0, _, _ => none
  | _ + 1, _, [] => none
  | fuel + 1, depth, c :: rest =>
    match matchDivTag (c :: rest) with
    | some (isClose, after) =>
      if isClose then
        if depth == 1 then some []
        else
          (scanDivDepth fuel (depth - 1) after).map
            (fun t => ((c :: rest).take ((c :: rest).length - after.length)) ++ t)
      else
        (scanDivDepth fuel (depth + 1) after).map
          (fun t => ((c :: rest).take ((c :: rest).length - after.length)) ++ t)
    | none => (scanDivDepth fuel depth rest).map (fun t => c :: t)

/-- `extractClassBlock`, fixed at class `descripcion-contenido`. -/
def extractClassBlock (html : Str) : Option Str :=
  match findOpenDivGo (html.length + 1) html with
  | none => none
  | some afterOpen => scanDivDepth (afterOpen.length + 1) 1 afterOpen

/-- Leftmost case-insensitive split of `s` around `pat`:
`(prefix before the occurrence, suffix after it)`. -/
def splitOnCi : Nat → Str → Str → Option (Str × Str)
  | 0, _, _ => none
  | _ + 1, pat, [] =>
    (match stripCi pat [] with
     | some r => some (([] : Str), r)
     | none => none)
  | fuel + 1, pat, c :: rest =>
    match stripCi pat (c :: rest) with
    | some r => some (([] : Str), r)
    | none => (splitOnCi fuel pat rest).map (fun pr => (c :: pr.1, pr.2))

/-- One attempt of `<p\b[^>]*>[\s\S]*?<\/p>` (flag `gi`) at the start of `s`:
`(the whole match, remainder after it)`. -/
def matchPAt (s : Str) : Option (Str × Str) :=
  match stripCi (str "<p") s with
  | none => none
  | some r1 =>
    if !r1.isEmpty && isWordC (r1.headD ' ') then none
    else
      let run := r1.takeWhile (fun d => d != '>')
      match r1.drop run.length with
      | '>' :: r2 =>
        match splitOnCi (r2.length + 1) (str "</p>") r2 with
        | some (_, after) => some (s.take (s.length - after.length), after)
        | none => none
      | _ => none

/-- All matches of the paragraph regex (the `matchAll` of
`extractParagraphs`), in order. -/
def extractParasRaw : Nat → Str → List Str
  | 0, _ => []
  | _ + 1, [] => []
  | fuel + 1, c :: rest =>
    match matchPAt (c :: rest) with
    | some (m0, after) => m0 :: extractParasRaw fuel after
    | none => extractParasRaw fuel rest

/-- `extractParagraphs`, `parser.ts` 155-162: each `<p>...</p>` match is
tag-stripped, entity-decoded (which can throw) and whitespace-normalized;
empty results are dropped (`filter(Boolean)`). -/
def extractParagraphs (contentHtml : Str) : Except Str (List Str) := do
  let ms := extractParasRaw (contentHtml.length + 1) contentHtml
  let decoded ← ms.mapM (fun m => (decodeHtmlEntities (stripTags m)).map normalizeWhitespace)
  pure (decoded.filter (fun p => !p.isEmpty))

/-- `normalizeSection`, `parser.ts` 164-169: drop ordinal signs, drop all
whitespace, drop one trailing period. -/
def normalizeSection (s : Str) : Str :=
  let a := ((s.filter (fun c => c != '°' && c != 'º')).filter (fun c => !(isJsWs c)))
  match a.reverse with
  | '.' :: r => r.reverse
  | _ => a

def isLowerAlnum (c : Char) : Bool := isDigitC c || ('a' ≤ c && c ≤ 'z')

/-- Replace each run of characters outside `[0-9a-z]` by a single `-`. -/
def slugDash : Bool → Str → Str
  | _, [] => []
  | prev, c :: rest =>
    if isLowerAlnum c then c :: slugDash false rest
    else if prev then slugDash true rest
    else '-' :: slugDash true rest

/-- `toProvisionRef`, `parser.ts` 171-173. -/
def toProvisionRef (s : Str) : Str := str "art" ++ slugDash false (lowerStr s)

/-- The `(?:\.[0-9]+)*` repetitions of `ARTICLE_RE`'s designator (greedy). -/
def dotNumReps : Nat → Str → (Str × Str)
  | 0, s => ([], s)
  | fuel + 1, s =>
    match s with
    | '.' :: rr =>
      let dd := rr.takeWhile isDigitC
      if dd.isEmpty then ([], s)
      else
        let pr := dotNumReps fuel (rr.drop dd.length)
        ('.' :: (dd ++ pr.1), pr.2)
    | _ => ([], s)

/-- The four case-sensitive spellings `(?:ART[IÍ]CULO|Art[ií]culo)` accepts. -/
def articleKeywords : List Str :=
  [str "ARTÍCULO", str "ARTICULO", str "Artículo", str "Articulo"]

def stripAnyCs (pats : List Str) (s : Str) : Option Str :=
  firstSome (fun p => stripCs p s) pats

/-- `ARTICLE_RE` (`parser.ts` 48) applied at the start of the paragraph
(`^...$`, no `m` flag), returning capture group 1 (the designator).  The final
`\s*(.*)$` succeeds exactly when, after stripping leading whitespace, no line
terminator remains (`.` cannot cross one and `$` only matches at the end). -/
def matchArticle (p : Str) : Option Str :=
  match stripAnyCs articleKeywords p with
  | none => none
  | some r1 =>
    let ws := r1.takeWhile isJsWs
    if ws.isEmpty then none
    else
      let r2 := r1.drop ws.length
      let d1 := r2.takeWhile isDigitC
      if d1.isEmpty then none
      else
        let r3 := r2.drop d1.length
        let repsPr := dotNumReps (r3.length + 1) r3
        let dashPr : Str × Str :=
          match repsPr.2 with
          | '-' :: rr =>
            let dd := rr.takeWhile isDigitC
            if dd.isEmpty then ([], repsPr.2)
            else ('-' :: dd, rr.drop dd.length)
          | _ => ([], repsPr.2)
        let letterPr : Str × Str :=
          match dashPr.2 with
          | c :: rr => if isAsciiLetter c then ([c], rr) else ([], dashPr.2)
          | [] => ([], dashPr.2)
        let g1 := d1 ++ repsPr.1 ++ dashPr.1 ++ letterPr.1
        let r7 :=
          (let wsr := letterPr.2.dropWhile isJsWs
           match wsr with
           | c :: rr => if c == '°' || c == 'º' then rr else letterPr.2
           | [] => letterPr.2)
        let r8 :=
          match r7 with
          | '.' :: rr => rr
          | _ => r7
        let t := r8.dropWhile isJsWs
        if t.any isLineTerm then none else some g1

/-- The lower-cased spellings accepted by
`^(?:CAP[IÍ]TULO|T[IÍ]TULO|SECCI[ÓO]N)` under the `i` flag. -/
def chapterKeywords : List Str :=
  [str "capítulo", str "capitulo", str "título", str "titulo",
   str "sección", str "seccion"]

/-- Character class `[A-Z0-9IVXLCM.-]` under the `i` flag. -/
def isChapterClassChar (c : Char) : Bool :=
  isAsciiLetter c || isDigitC c || c == '.' || c == '-'

/-- `CHAPTER_RE.test` (`parser.ts` 49): anchored prefix match. -/
def chapterTest (p : Str) : Bool :=
  match firstSome (fun k => stripCi k p) chapterKeywords with
  | none => false
  | some r1 =>
    let ws := r1.takeWhile isJsWs
    if ws.isEmpty then false
    else
      match r1.drop ws.length with
      | c :: _ => isChapterClassChar c
      | [] => false

/-- `MONTHS_ES`, `parser.ts` 51-65. -/
def monthsES : List (Str × Str) :=
  [ (str "enero", str "01"), (str "febrero", str "02"), (str "marzo", str "03"),
    (str "abril", str "04"), (str "mayo", str "05"), (str "junio", str "06"),
    (str "julio", str "07"), (str "agosto", str "08"),
    (str "septiembre", str "09"), (str "setiembre", str "09"),
    (str "octubre", str "10"), (str "noviembre", str "11"),
    (str "diciembre", str "12") ]

/-- Character class `[a-záéíóú]` under the `i` flag. -/
def isMonthChar (c : Char) : Bool :=
  let l := lowerChar c
  ('a' ≤ l && l ≤ 'z') || l == 'á' || l == 'é' || l == 'í' || l == 'ó' || l == 'ú'

def medioPrefix : Str := lowerStr (str "Medio de Publicación:")

def diarioLit : Str := lowerStr (str "Diario Oficial")

/-- Tail `\bde\s+([a-záéíóú]+)\s+(\d{1,2})\s+de\s+(\d{4})` of the first date
pattern, tried at the current position of the lazy `[^.]*?` scan; `prev` is
the character just before that position (for `\b`).  Returns
`(month, day, year)`. -/
def tailP1 (prev : Char) (s : Str) : Option (Str × Str × Str) :=
  if isWordC prev then none
  else
    match stripCi (str "de") s with
    | none => none
    | some r1 =>
      let ws1 := r1.takeWhile isJsWs
      if ws1.isEmpty then none
      else
        let r2 := r1.drop ws1.length
        let m := r2.takeWhile isMonthChar
        if m.isEmpty then none
        else
          let r3 := r2.drop m.length
          let ws2 := r3.takeWhile isJsWs
          if ws2.isEmpty then none
          else
            let r4 := r3.drop ws2.length
            let dd := r4.takeWhile isDigitC
            if dd.isEmpty || dd.length > 2 then none
            else
              let r5 := r4.drop dd.length
              let ws3 := r5.takeWhile isJsWs
              if ws3.isEmpty then none
              else
                let r6 := r5.drop ws3.length
                match stripCi (str "de") r6 with
                | none => none
                | some r7 =>
                  let ws4 := r7.takeWhile isJsWs
                  if ws4.isEmpty then none
                  else
                    let r8 := r7.drop ws4.length
                    let ys := r8.take 4
                    if ys.length == 4 && ys.all isDigitC then some (m, dd, ys)
                    else none

/-- Tail `\bdel?\s+(\d{1,2})\s+de\s+([a-záéíóú]+)\s+de\s+(\d{4})` of the
second date pattern.  Returns `(day, month, year)`. -/
def tailP2 (prev : Char) (s : Str) : Option (Str × Str × Str) :=
  if isWordC prev then none
  else
    match stripCi (str "de") s with
    | none => none
    | some r1 =>
      let r1b :=
        match r1 with
        | c :: rr => if lowerChar c == 'l' then rr else r1
        | [] => r1
      let ws1 := r1b.takeWhile isJsWs
      if ws1.isEmpty then none
      else
        let r2 := r1b.drop ws1.length
        let dd := r2.takeWhile isDigitC
        if dd.isEmpty || dd.length > 2 then none
        else
          let r3 := r2.drop dd.length
          let ws2 := r3.takeWhile isJsWs
          if ws2.isEmpty then none
          else
            let r4 := r3.drop ws2.length
            match stripCi (str "de") r4 with
            | none => none
            | some r5 =>
              let ws3 := r5.takeWhile isJsWs
              if ws3.isEmpty then none
              else
                let r6 := r5.drop ws3.length
                let m := r6.takeWhile isMonthChar
                if m.isEmpty then none
                else
                  let r7 := r6.drop m.length
                  let ws4 := r7.takeWhile isJsWs
                  if ws4.isEmpty then none
                  else
                    let r8 := r7.drop ws4.length
                    match stripCi (str "de") r8 with
                    | none => none
                    | some r9 =>
                      let ws5 := r9.takeWhile isJsWs
                      if ws5.isEmpty then none
                      else
                        let r10 := r9.drop ws5.length
                        let ys := r10.take 4
                        if ys.length == 4 && ys.all isDigitC then
                          some (dd, m, ys)
                        else none

/-- Lazy `[^.]*?` scan: try the tail at each position left to right, never
crossing a `.`, threading the previous character for `\b`. -/
def lazyDotScan (tail : Char → Str → Option (Str × Str × Str)) :
    Nat → Char → Str → Option (Str × Str × Str)
  | 0, _, _ => none
  | fuel + 1, prev, s =>
    match tail prev s with
    | some r => some r
    | none =>
      match s with
      | c :: rest => if c == '.' then none else lazyDotScan tail fuel c rest
      | [] => none

/-- Attempt of a full date pattern (common prefix
`Medio de Publicación:\s*Diario Oficial` then lazy scan then `tail`) at the
start of `s`. -/
def matchDateAt (tail : Char → Str → Option (Str × Str × Str)) (s : Str) :
    Option (Str × Str × Str) :=
  match stripCi medioPrefix s with
  | none => none
  | some r1 =>
    let r2 := r1.dropWhile isJsWs
    match stripCi diarioLit r2 with
    | none => none
    | some r3 => lazyDotScan tail (r3.length + 1) 'l' r3

/-- Leftmost match of a date pattern in the whole text (`String.match`). -/
def searchDate (tail : Char → Str → Option (Str × Str × Str)) :
    Nat → Str → Option (Str × Str × Str)
  | 0, _ => none
  | fuel + 1, s =>
    match matchDateAt tail s with
    | some r => some r
    | none =>
      match s with
      | _ :: rest => searchDate tail fuel rest
      | [] => none

/-- First pattern of `parseDateFromMedioPublicacion` (`parser.ts` 178-180):
month before day.  Returns `(month, day, year)`. -/
def searchP1 (s : Str) : Option (Str × Str × Str) :=
  searchDate tailP1 (s.length + 1) s

/-- Second pattern (`parser.ts` 188-190): day before month.  Returns
`(day, month, year)`. -/
def searchP2 (s : Str) : Option (Str × Str × Str) :=
  searchDate tailP2 (s.length + 1) s

/-- JavaScript `padStart(2, '0')` on the captured day. -/
def padDay (d : Str) : Str := if d.length < 2 then '0' :: d else d

/-- Pure core of `parseDateFromMedioPublicacion` on the normalized plain
text: first pattern wins; an unrecognized month name returns `none`
immediately, without consulting the second pattern. -/
def dateSearch (plain : Str) : Option Str :=
  match searchP1 plain with
  | some (m, dd, y) =>
    match List.lookup (lowerStr m) monthsES with
    | none => none
    | some mm => some (y ++ ['-'] ++ mm ++ ['-'] ++ padDay dd)
  | none =>
    match searchP2 plain with
    | some (dd, m, y) =>
      match List.lookup (lowerStr m) monthsES with
      | none => none
      | some mm => some (y ++ ['-'] ++ mm ++ ['-'] ++ padDay dd)
    | none => none

/-- `parseDateFromMedioPublicacion`, `parser.ts` 175-199. -/
def parseDateFromMedioPublicacion (html : Str) : Except Str (Option Str) :=
  (decodeHtmlEntities (stripTags html)).map
    (fun d => dateSearch (normalizeWhitespace d))

def quoteChar (c : Char) : Bool := c == '"' || c == '\''

/-- Generic leftmost scan: try the attempt `att` at every position. -/
def scanLeft {α : Type} (att : Str → Option α) : Nat → Str → Option α
  | 0, _ => none
  | fuel + 1, s =>
    match att s with
    | some r => some r
    | none =>
      match s with
      | _ :: rest => scanLeft att fuel rest
      | [] => none

/-- Greedy `[^>]*` followed by a case-insensitive literal, in continuation
style so that a failure of the rest of the pattern backtracks into the
quantifier. -/
def seekAttrK {α : Type} (kw : Str) (s : Str) (k : Str → Option α) : Option α :=
  firstSome (fun kr =>
    match stripCi kw kr.2 with
    | some r => k r
    | none => none) (greedySplits (fun d => d != '>') s)

/-- Literal `["']lit["']` (either quote on either side), returning the
remainder. -/
def matchQuotedCi (lit : Str) (s : Str) : Option Str :=
  match s with
  | q :: r1 =>
    if quoteChar q then
      match stripCi lit r1 with
      | some (q2 :: r2) => if quoteChar q2 then some r2 else none
      | _ => none
    else none
  | [] => none

/-- Capture `["']([^"]+)["']` (greedy group, longest first), in continuation
style: `k group remainder`. -/
def matchQuotedCaptureK {α : Type} (s : Str) (k : Str → Str → Option α) :
    Option α :=
  match s with
  | q :: r1 =>
    if quoteChar q then
      firstSome (fun kr =>
        if kr.1 == 0 then none
        else
          match kr.2 with
          | q2 :: r2 => if quoteChar q2 then k (r1.take kr.1) r2 else none
          | [] => none) (greedySplits (fun d => d != '"') r1)
    else none
  | [] => none

/-- Attempt of the `titulo-norma` heading regex of `extractTitle`
(`parser.ts` 202) at the start of `s`; returns capture group 1. -/
def matchH2At (s : Str) : Option Str :=
  match stripCi (str "<h2") s with
  | none => none
  | some r0 =>
    seekAttrK (str "class=") r0 (fun r1 =>
      match matchQuotedCi (str "titulo-norma") r1 with
      | none => none
      | some r2 =>
        let run := r2.takeWhile (fun d => d != '>')
        match r2.drop run.length with
        | '>' :: r3 =>
          let r4 := r3.dropWhile isJsWs
          match stripCi (str "<strong>") r4 with
          | some r5 => (splitOnCi (r5.length + 1) (str "</strong>") r5).map
              (fun pr => pr.1)
          | none => none
        | _ => none)

/-- Attempt of `<meta[^>]*property=["']prop["'][^>]*content=["']([^"]+)["']`
at the start of `s`. -/
def matchOgContent (prop : Str) (s : Str) : Option Str :=
  match stripCi (str "<meta") s with
  | none => none
  | some r0 =>
    seekAttrK (str "property=") r0 (fun r1 =>
      match matchQuotedCi prop r1 with
      | none => none
      | some r2 =>
        seekAttrK (str "content=") r2 (fun r3 =>
          matchQuotedCaptureK r3 (fun g _ => some g)))

/-- Attempt of the attribute-order-swapped variant
`<meta[^>]*content=["']([^"]+)["'][^>]*property=["']og:description["']`. -/
def matchMetaContentFirst (s : Str) : Option Str :=
  match stripCi (str "<meta") s with
  | none => none
  | some r0 =>
    seekAttrK (str "content=") r0 (fun r1 =>
      matchQuotedCaptureK r1 (fun g r2 =>
        seekAttrK (str "property=") r2 (fun r3 =>
          (matchQuotedCi (str "og:description") r3).map (fun _ => g))))

/-- Suffix test for `/\s*-\s*Gestor Normativo\s*$/i` at the start of `s`
(must reach the end of the string). -/
def gnMatchAt (s : Str) : Bool :=
  match s.dropWhile isJsWs with
  | '-' :: r1 =>
    (match stripCi (str "gestor normativo") (r1.dropWhile isJsWs) with
     | some r3 => r3.all isJsWs
     | none => false)
  | _ => false

def stripGestorSuffixGo : Nat → Str → Option Str
  | 0, _ => none
  | fuel + 1, s =>
    if gnMatchAt s then some []
    else
      match s with
      | c :: rest => (stripGestorSuffixGo fuel rest).map (fun t => c :: t)
      | [] => none

/-- `og:title`'s `.replace(/\s*-\s*Gestor Normativo\s*$/i, '')`. -/
def stripGestorSuffix (t : Str) : Str := (stripGestorSuffixGo (t.length + 1) t).getD t

/-- `extractTitle`, `parser.ts` 201-213. -/
def extractTitle (html : Str) : Except Str Str :=
  match scanLeft matchH2At (html.length + 1) html with
  | some g1 => (decodeHtmlEntities (stripTags g1)).map normalizeWhitespace
  | none =>
    match scanLeft (matchOgContent (str "og:title")) (html.length + 1) html with
    | some g => (decodeHtmlEntities (stripGestorSuffix g)).map normalizeWhitespace
    | none => Except.ok (str "Norma sin título")

/-- `extractDescription`, `parser.ts` 215-221. -/
def extractDescription (html : Str) : Except Str (Option Str) :=
  let a := scanLeft (matchOgContent (str "og:description")) (html.length + 1) html
  let b := scanLeft matchMetaContentFirst (html.length + 1) html
  match a.orElse (fun _ => b) with
  | none => Except.ok none
  | some t => (decodeHtmlEntities t).map (fun d => some (normalizeWhitespace d))

inductive LawStatus where
  | in_force | amended | repealed | not_yet_in_force
deriving DecidableEq

/-- `TargetLaw` (`parser.ts` 8-17).  `number` and `year` are optional here
because the dynamically discovered catalog entries are built without them. -/
structure TargetLaw where
  id : Str
  fileName : Str
  portalId : Nat
  docTypeId : Nat
  number : Option Str
  year : Option Nat
  shortName : Str
  status : LawStatus
deriving DecidableEq

/-- `ParsedProvision` (`parser.ts` 19-25). -/
structure ParsedProvision where
  provision_ref : Str
  chapter : Option Str
  «section» : Str
  title : Str
  content : Str
deriving DecidableEq

/-- `ParsedDefinition` (`parser.ts` 27-31). -/
structure ParsedDefinition where
  term : Str
  definition : Str
  source_provision : Option Str
deriving DecidableEq

/-- The `active` accumulator of `extractProvisions`. -/
structure ActiveProv where
  «section» : Str
  chapter : Option Str
  blocks : List Str
deriving DecidableEq

/-- Loop state of `extractProvisions`' forward pass. -/
structure SegState where
  currentChapter : Option Str
  active : Option ActiveProv
  acc : List ParsedProvision
deriving DecidableEq

/-- `active.blocks.join('\n\n')`. -/
def joinBlocks : List Str → Str
  | [] => []
  | [b] => b
  | b :: rest => b ++ ('\n' :: '\n' :: joinBlocks rest)

/-- The `flush` closure of `extractProvisions` (`parser.ts` 229-244): a body
shorter than 20 UTF-16 units is discarded, otherwise a provision is emitted. -/
def flushState (st : SegState) : SegState :=
  match st.active with
  | none => st
  | some a =>
    let content := normalizeWhitespace (joinBlocks a.blocks)
    if jsStrLen content < 20 then { st with active := none }
    else
      { st with
        active := none,
        acc := st.acc ++
          [{ provision_ref := toProvisionRef a.«section», chapter := a.chapter,
             «section» := a.«section»,
             title := str "Artículo " ++ a.«section», content := content }] }

/-- One iteration of the paragraph loop (`parser.ts` 246-267): chapter
headings update the context; an article start flushes and opens a new active
provision; other paragraphs extend the active provision. -/
def segStep (st : SegState) (p : Str) : SegState :=
  if chapterTest p ∧ jsStrLen p ≤ 140 then { st with currentChapter := some p }
  else
    match matchArticle p with
    | some g1 =>
      let st' := flushState st
      { st' with active := some { «section» := normalizeSection g1,
                                  chapter := st.currentChapter, blocks := [p] } }
    | none =>
      match st.active with
      | some a => { st with active := some { a with blocks := a.blocks ++ [p] } }
      | none => st

def initSeg : SegState := ⟨none, none, []⟩

/-- The candidate provisions produced by the forward pass (before the
per-section dedup). -/
def segmentParagraphs (ps : List Str) : List ParsedProvision :=
  (flushState (ps.foldl segStep initSeg)).acc

/-- `Map.set` on the section-keyed map (`parser.ts` 271-277): replace the
first (unique) entry with the same section when the new body is strictly
longer, keeping insertion order; append otherwise. -/
def upsert (m : List ParsedProvision) (p : ParsedProvision) :
    List ParsedProvision :=
  match m with
  | [] => [p]
  | q :: rest =>
    if q.«section» = p.«section» then
      (if jsStrLen p.content > jsStrLen q.content then p else q) :: rest
    else q :: upsert rest p

/-- The dedup pass of `extractProvisions` (`parser.ts` 271-279). -/
def dedupeBySection (ps : List ParsedProvision) : List ParsedProvision :=
  ps.foldl upsert []

/-- `extractProvisions`, `parser.ts` 223-280. -/
def extractProvisions (contentHtml : Str) :
    Except Str (List ParsedProvision) :=
  (extractParagraphs contentHtml).map
    (fun ps => dedupeBySection (segmentParagraphs ps))

/-- Character class `[a-zñ]` under the `i` flag. -/
def isDefnLetter (c : Char) : Bool :=
  let l := lowerChar c
  ('a' ≤ l && l ≤ 'z') || l == 'ñ'

/-- Character class `[^:;\n]` of the definition-term capture. -/
def isTermChar (c : Char) : Bool := c != ':' && c != ';' && c != '\n'

/-- Lazy `([^:;\n]{2,120}?)\s*:`: starting from `taken` already-consumed term
characters, try to bridge `\s*:` first (shortest match), else extend the term
up to 120 characters.  Returns `(term capture, remainder after the colon)`. -/
def termScan : Nat → Str → Str → Option (Str × Str)
  | 0, _, _ => none
  | fuel + 1, taken, rest =>
    let bridge : Option (Str × Str) :=
      if taken.length ≥ 2 then
        let wsr := rest.takeWhile isJsWs
        match rest.drop wsr.length with
        | ':' :: r2 => some (taken, r2)
        | _ => none
      else none
    match bridge with
    | some r => some r
    | none =>
      match rest with
      | c :: rr =>
        if taken.length < 120 && isTermChar c then termScan fuel (taken ++ [c]) rr
        else none
      | [] => none

/-- Greedy `\s*` then lazy `([^\n]+?)` bounded by the multiline-`$` lookahead:
the definition capture runs from the first feasible start to the next line
terminator (or the end).  Returns `(definition capture, remainder)`. -/
def group3After (rest : Str) : Option (Str × Str) :=
  firstSome (fun kr =>
    match kr.2 with
    | c :: rr =>
      if c == '\n' then none
      else
        let run := rr.takeWhile (fun d => !(isLineTerm d))
        some (c :: run, rr.drop run.length)
    | [] => none) (greedySplits isJsWs rest)

/-- Body of the lettered-list regex of `extractDefinitions` after its
`(?:^|\n)` anchor: `\s*([a-zñ])\)\s*` then the term and definition captures.
Returns `(term capture, definition capture, remainder after the match)`. -/
def tryDefnBody (s : Str) : Option (Str × Str × Str) :=
  firstSome (fun kr1 =>
    match kr1.2 with
    | c :: r1 =>
      if isDefnLetter c then
        match r1 with
        | ')' :: r2 =>
          firstSome (fun kr2 =>
            match termScan (kr2.2.length + 1) [] kr2.2 with
            | some pr =>
              match group3After pr.2 with
              | some pr3 => some (pr.1, pr3.1, pr3.2)
              | none => none
            | none => none) (greedySplits isJsWs r2)
        | _ => none
      else none
    | [] => none) (greedySplits isJsWs s)

/-- The `exec` loop over the lettered-list regex (`parser.ts` 292-294):
leftmost matches, resuming after each match; `prevTerm` tracks whether the
current position follows a line terminator (for the multiline `^`). -/
def defnScanGo : Nat → Bool → Str → List (Str × Str)
  | 0, _, _ => []
  | fuel + 1, prevTerm, s =>
    let anchored : Option Str :=
      if prevTerm then some s
      else
        match s with
        | '\n' :: r => some r
        | _ => none
    match anchored.bind tryDefnBody with
    | some (g2, g3, rem) =>
      (g2, g3) :: defnScanGo fuel (isLineTerm (g3.getLastD ' ')) rem
    | none =>
      match s with
      | c :: rest => defnScanGo fuel (isLineTerm c) rest
      | [] => []

/-- Trailing-run strip (`/[. ]+$/` and `/[; ]+$/` replacements). -/
def trimTrailing (cs : List Char) (s : Str) : Str :=
  (s.reverse.dropWhile (fun c => cs.contains c)).reverse

/-- One candidate of the lettered-list regex, run through the filters of
`extractDefinitions` (`parser.ts` 295-308): term and definition lengths and
the case-insensitive dedup against the `seen` set. -/
def defnStep (provRef : Str) (st : List ParsedDefinition × List Str)
    (cand : Str × Str) : List ParsedDefinition × List Str :=
  let term := trimTrailing ['.', ' '] (normalizeWhitespace cand.1)
  let defn := trimTrailing [';', ' '] (normalizeWhitespace cand.2)
  let key := lowerStr term
  if jsStrLen term < 2 || jsStrLen term > 120 then st
  else if jsStrLen defn < 8 then st
  else if st.2.contains key then st
  else
    (st.1 ++ [{ term := term, definition := defn,
                source_provision := some provRef }],
     key :: st.2)

/-- Per-provision step of `extractDefinitions`: provisions without a
definitional marker are skipped; otherwise every regex candidate is folded
through the filters. -/
def defnProvStep (st : List ParsedDefinition × List Str)
    (provision : ParsedProvision) : List ParsedDefinition × List Str :=
  let lower := lowerStr provision.content
  if !(containsSub (str "se entiende por") lower) &&
     !(containsSub (str "definiciones") lower) then st
  else
    (defnScanGo (provision.content.length + 1) true provision.content).foldl
      (defnStep provision.provision_ref) st

/-- `extractDefinitions`, `parser.ts` 282-312, capped at 80 by the final
`slice`. -/
def extractDefinitions (provisions : List ParsedProvision) :
    List ParsedDefinition :=
  (provisions.foldl defnProvStep (([], []) : List ParsedDefinition × List Str)).1.take 80

/-- `ParsedAct` (`parser.ts` 33-46) as constructed by `parseNormaHtml`
(`title_en` is never set there and is omitted). -/
structure ParsedAct where
  id : Str
  type : Str
  title : Str
  short_name : Str
  status : LawStatus
  issued_date : Option Str
  in_force_date : Option Str
  url : Str
  description : Option Str
  provisions : List ParsedProvision
  definitions : List ParsedDefinition
deriving DecidableEq

def normaBaseUrl : Str := str "https://www.funcionpublica.gov.co/eva/gestornormativo"

/-- `parseNormaHtml`, `parser.ts` 314-335.  The `Except` models the
exceptions that `decodeHtmlEntities` can raise (`String.fromCodePoint` on an
out-of-range numeric character reference); evaluation order follows the
source. -/
def parseNormaHtml (html : Str) (law : TargetLaw) : Except Str ParsedAct := do
  let title ← extractTitle html
  let description ← extractDescription html
  let issuedDate ← parseDateFromMedioPublicacion html
  let contentHtml := (extractClassBlock html).getD []
  let provisions ← extractProvisions contentHtml
  let definitions := extractDefinitions provisions
  pure { id := law.id, type := str "statute", title := title,
         short_name := law.shortName, status := law.status,
         issued_date := issuedDate, in_force_date := issuedDate,
         url := normaBaseUrl ++ str "/norma.php?i=" ++ natStr law.portalId,
         description := description, provisions := provisions,
         definitions := definitions }

/-- `TARGET_LAWS`, `parser.ts` 337-438. -/
def TARGET_LAWS : List TargetLaw :=
  [ { id := str "co-ley-1581-2012",
      fileName := str "01-ley-1581-2012-proteccion-datos.json",
      portalId := 49981, docTypeId := 18, number := some (str "1581"),
      year := some 2012, shortName := str "Ley 1581 de 2012",
      status := LawStatus.in_force },
    { id := str "co-ley-1266-2008",
      fileName := str "02-ley-1266-2008-habeas-data-financiero.json",
      portalId := 34488, docTypeId := 18, number := some (str "1266"),
      year := some 2008, shortName := str "Ley 1266 de 2008",
      status := LawStatus.in_force },
    { id := str "co-ley-1273-2009",
      fileName := str "03-ley-1273-2009-delitos-informaticos.json",
      portalId := 34492, docTypeId := 18, number := some (str "1273"),
      year := some 2009, shortName := str "Ley 1273 de 2009",
      status := LawStatus.in_force },
    { id := str "co-ley-1341-2009",
      fileName := str "04-ley-1341-2009-sector-tic.json",
      portalId := 36913, docTypeId := 18, number := some (str "1341"),
      year := some 2009, shortName := str "Ley 1341 de 2009",
      status := LawStatus.amended },
    { id := str "co-ley-527-1999",
      fileName := str "05-ley-527-1999-comercio-electronico.json",
      portalId := 4276, docTypeId := 18, number := some (str "527"),
      year := some 1999, shortName := str "Ley 527 de 1999",
      status := LawStatus.amended },
    { id := str "co-ley-1712-2014",
      fileName := str "06-ley-1712-2014-transparencia-acceso-informacion.json",
      portalId := 56882, docTypeId := 18, number := some (str "1712"),
      year := some 2014, shortName := str "Ley 1712 de 2014",
      status := LawStatus.in_force },
    { id := str "co-decreto-1078-2015",
      fileName := str "07-decreto-1078-2015-sector-tic.json",
      portalId := 77888, docTypeId := 11, number := some (str "1078"),
      year := some 2015, shortName := str "Decreto 1078 de 2015",
      status := LawStatus.amended },
    { id := str "co-decreto-1377-2013",
      fileName := str "08-decreto-1377-2013-reglamenta-ley-1581.json",
      portalId := 53646, docTypeId := 11, number := some (str "1377"),
      year := some 2013, shortName := str "Decreto 1377 de 2013",
      status := LawStatus.amended },
    { id := str "co-ley-1621-2013",
      fileName := str "09-ley-1621-2013-inteligencia-contrainteligencia.json",
      portalId := 52706, docTypeId := 18, number := some (str "1621"),
      year := some 2013, shortName := str "Ley 1621 de 2013",
      status := LawStatus.in_force },
    { id := str "co-ley-1978-2019",
      fileName := str "10-ley-1978-2019-modernizacion-sector-tic.json",
      portalId := 98210, docTypeId := 18, number := some (str "1978"),
      year := some 2019, shortName := str "Ley 1978 de 2019",
      status := LawStatus.in_force } ]

def MAX_RETRIES : Nat := 3

/-- `FetchResult` of the fetcher module. -/
structure FetchResult where
  status : Nat
  body : Str
  contentType : Str
  url : Str
deriving DecidableEq

/-- Outcome of one outbound request: an HTTP response or a transport-level
failure (the `fetch` promise rejecting). -/
inductive NetOutcome where
  | resp (r : FetchResult)
  | err (msg : Str)
deriving DecidableEq

/-- Retry loop of `fetchWithRateLimit` (fetcher lines 301-341), driven by an
oracle list supplying one network outcome per attempt.  Returns the result
and the list of backoff waits (milliseconds) performed, in order.  The final
`retries exhausted` throw of the source is unreachable when the oracle
supplies `maxRetries + 1` outcomes; it is mapped to the empty-oracle case. -/
def fetchLoop (maxRetries : Nat) (url : Str) :
    Nat → List NetOutcome → (Except Str FetchResult × List Nat)
  | _, [] =>
    (Except.error (str "Failed to fetch " ++ url ++ str ": retries exhausted"), [])
  | attempt, o :: rest =>
    match o with
    | NetOutcome.resp r =>
      if (r.status = 429 ∨ 500 ≤ r.status) ∧ attempt < maxRetries then
        let pr := fetchLoop maxRetries url (attempt + 1) rest
        (pr.1, (2 ^ (attempt + 1) * 1000) :: pr.2)
      else (Except.ok r, [])
    | NetOutcome.err m =>
      if attempt < maxRetries then
        let pr := fetchLoop maxRetries url (attempt + 1) rest
        (pr.1, (2 ^ (attempt + 1) * 1000) :: pr.2)
      else
        (Except.error (str "Failed to fetch " ++ url ++ str ": " ++ m), [])

/-- `fetchWithRateLimit` (modulo the pacing delay, which affects timing
only): attempts start at 0. -/
def fetchWithRateLimit (maxRetries : Nat) (url : Str) (outs : List NetOutcome) :
    Except Str FetchResult × List Nat :=
  fetchLoop maxRetries url 0 outs

/-- An outcome the loop retries on: HTTP 429, HTTP 5xx, or a transport
failure. -/
def isRetryableOutcome : NetOutcome → Bool
  | NetOutcome.resp r => r.status == 429 || decide (500 ≤ r.status)
  | NetOutcome.err _ => true

def countLeadRetryable : List NetOutcome → Nat
  | [] => 0
  | o :: rest => if isRetryableOutcome o then countLeadRetryable rest + 1 else 0

/-- The terminal result produced from the outcome of the last attempt. -/
def finalizeOutcome (url : Str) : NetOutcome → Except Str FetchResult
  | NetOutcome.resp r => Except.ok r
  | NetOutcome.err m =>
    Except.error (str "Failed to fetch " ++ url ++ str ": " ++ m)

inductive IngStatus where
  | ok | failed
deriving DecidableEq

/-- `IngestResult` (`ingest.ts` 34-41). -/
structure IngestResult where
  law : TargetLaw
  status : IngStatus
  seedFile : Option Str
  provisions : Option Nat
  definitions : Option Nat
  error : Option Str
deriving DecidableEq

/-- `ingestLaw` (`ingest.ts` 234-270) on the fetch path (no cached
snapshot), driven by the result of the fetch: a thrown fetch error is caught
and recorded; a non-200 response is recorded as `HTTP <status>`; a parse
exception is caught and recorded; otherwise the parsed act is saved. -/
def ingestLaw (law : TargetLaw) (fetchRes : Except Str FetchResult) :
    IngestResult :=
  match fetchRes with
  | Except.error m => ⟨law, IngStatus.failed, none, none, none, some m⟩
  | Except.ok f =>
    if f.status ≠ 200 then
      ⟨law, IngStatus.failed, none, none, none,
       some (str "HTTP " ++ natStr f.status)⟩
    else
      match parseNormaHtml f.body law with
      | Except.error m => ⟨law, IngStatus.failed, none, none, none, some m⟩
      | Except.ok parsed =>
        ⟨law, IngStatus.ok, some law.fileName, some parsed.provisions.length,
         some parsed.definitions.length, none⟩

/-- `Map.set` of the `allResults` map, keyed by `law.id`. -/
def updateRes (m : Str → Option IngestResult) (k : Str) (v : IngestResult) :
    Str → Option IngestResult :=
  fun k2 => if k2 = k then some v else m k2

/-- One round of `runIngestionWithRetries` (`ingest.ts` 330-346): process the
pending entries in order, recording each outcome under the law id and
collecting the failed entries (in order) as the next round's pending list.
The per-entry outcome is abstracted by `oracle law round`. -/
def runRoundGo (oracle : TargetLaw → Nat → IngestResult) (round : Nat) :
    List TargetLaw → (Str → Option IngestResult) →
    ((Str → Option IngestResult) × List TargetLaw)
  | [], m => (m, [])
  | law :: rest, m =>
    let r := oracle law round
    let pr := runRoundGo oracle round rest (updateRes m law.id r)
    (pr.1, (if r.status = IngStatus.failed then [law] else []) ++ pr.2)

/-- `runIngestionWithRetries` (`ingest.ts` 319-352): three rounds (a round
with no pending entries is a no-op, as the `break` is), then the final map is
read back in catalog order. -/
def runIngestionWithRetries (oracle : TargetLaw → Nat → IngestResult)
    (laws : List TargetLaw) : List IngestResult :=
  let s1 := runRoundGo oracle 1 laws (fun _ => none)
  let s2 := runRoundGo oracle 2 s1.2 s1.1
  let s3 := runRoundGo oracle 3 s2.2 s2.1
  laws.filterMap (fun law => s3.1 law.id)

/-- The exit-indicator decision of `main` (`ingest.ts` 367-369):
`process.exitCode = 1` exactly when some entry's final outcome failed. -/
def mainExitCode (oracle : TargetLaw → Nat → IngestResult)
    (laws : List TargetLaw) : Nat :=
  if (runIngestionWithRetries oracle laws).any
      (fun r => r.status == IngStatus.failed) then 1 else 0

/-- The round from which a law's final recorded outcome comes: the first
round with a successful outcome, else round 3 (the cap). -/
def finalRoundOf (oracle : TargetLaw → Nat → IngestResult)
    (law : TargetLaw) : Nat :=
  if (oracle law 1).status = IngStatus.ok then 1
  else if (oracle law 2).status = IngStatus.ok then 2
  else 3

def countLit : Str := lowerStr (str "Número de documentos encontrados:")

/-- Attempt of `Número de documentos encontrados:\s*([0-9.]+)` (flag `i`) at
the start of `s`, returning the capture. -/
def matchCountAt (s : Str) : Option Str :=
  match stripCi countLit s with
  | none => none
  | some r1 =>
    let r2 := r1.dropWhile isJsWs
    let cap := r2.takeWhile (fun c => isDigitC c || c == '.')
    if cap.isEmpty then none else some cap

/-- `parseSearchCount` (`ingest.ts` 122-126).  The outer `Option` is the
`null` of a failed regex match; the inner `Option` distinguishes `NaN`
(`parseInt('')` when the capture was only dots) from a number.  `parseInt`'s
float rounding on astronomically long captures is not modelled. -/
def parseSearchCount (html : Str) : Option (Option Nat) :=
  match scanLeft matchCountAt (html.length + 1) html with
  | none => none
  | some cap =>
    let ds := cap.filter isDigitC
    if ds.isEmpty then some none else some (some (digitsToNat ds))

/-- `SearchLawEntry` (`ingest.ts` 43-46). -/
structure SearchLawEntry where
  portalId : Nat
  title : Str
deriving DecidableEq

def hrefLit : Str := lowerStr (str "href=\"norma.php?i=")

/-- Attempt of the anchor/heading regex of `extractLawIndexFromSearchHtml`
(`ingest.ts` 132) at the start of `s`:
`<a[^>]*href="norma\.php\?i=(\d+)"[^>]*>[\s\S]*?<h5[^>]*>([^<]+)<\/h5>`.
Returns `(portal-id digits, raw title capture, remainder after the match)`. -/
def matchAnchorAt (s : Str) : Option (Str × Str × Str) :=
  match stripCi (str "<a") s with
  | none => none
  | some r0 =>
    seekAttrK hrefLit r0 (fun r1 =>
      let ds := r1.takeWhile isDigitC
      if ds.isEmpty then none
      else
        match r1.drop ds.length with
        | '"' :: r2 =>
          let run := r2.takeWhile (fun d => d != '>')
          match r2.drop run.length with
          | '>' :: r3 =>
            scanLeft (fun t =>
              match stripCi (str "<h5") t with
              | none => none
              | some u1 =>
                let run2 := u1.takeWhile (fun d => d != '>')
                match u1.drop run2.length with
                | '>' :: u2 =>
                  let cap := u2.takeWhile (fun d => d != '<')
                  if cap.isEmpty then none
                  else
                    match stripCi (str "</h5>") (u2.drop cap.length) with
                    | some u3 => some (ds, cap, u3)
                    | none => none
                | _ => none) (r3.length + 1) r3
          | _ => none
        | _ => none)

/-- The `exec` loop over the anchor regex: leftmost matches, resuming after
each. -/
def anchorScanGo : Nat → Str → List (Str × Str)
  | 0, _ => []
  | _ + 1, [] => []
  | fuel + 1, c :: rest =>
    match matchAnchorAt (c :: rest) with
    | some (ds, cap, rem) => (ds, cap) :: anchorScanGo fuel rem
    | none => anchorScanGo fuel rest

/-- Collapse runs of `\s` to a single space (`replace(/\s+/g, ' ')`). -/
def collapseWsRuns : Bool → Str → Str
  | _, [] => []
  | prev, c :: rest =>
    if isJsWs c then
      if prev then collapseWsRuns true rest
      else ' ' :: collapseWsRuns true rest
    else c :: collapseWsRuns false rest

/-- `/^Ley\s+/i.test(title)`. -/
def titleIsLey (t : Str) : Bool :=
  match stripCi (str "ley") t with
  | some r => !(r.takeWhile isJsWs).isEmpty
  | none => false

/-- `extractLawIndexFromSearchHtml` (`ingest.ts` 128-147): anchor matches in
order, portal ids deduplicated, titles whitespace-normalized and filtered to
those starting with `Ley`. -/
def extractLawIndexFromSearchHtml (html : Str) : List SearchLawEntry :=
  ((anchorScanGo (html.length + 1) html).foldl
    (fun (st : List SearchLawEntry × List Nat) pr =>
      if digitsToNat pr.1 ≥ floatInfThreshold then st
      else
        let portalId := digitsToNat pr.1
        if st.2.contains portalId then st
        else
          let title := jsTrim (collapseWsRuns false pr.2)
          if !(titleIsLey title) then (st.1, portalId :: st.2)
          else (st.1 ++ [⟨portalId, title⟩], portalId :: st.2))
    (([], []) : List SearchLawEntry × List Nat)).1

/-- NFKD base letter for the Latin-1 range: an accented letter decomposes
into its base letter plus a combining mark in `U+0300-U+036F`, which the
following `replace` strips; the decomposition is modelled directly as the
base letter.  Other characters are unchanged. -/
def latinBase (c : Char) : Char :=
  let n := c.toNat
  if 0xC0 ≤ n && n ≤ 0xC5 then 'A'
  else if n == 0xC7 then 'C'
  else if 0xC8 ≤ n && n ≤ 0xCB then 'E'
  else if 0xCC ≤ n && n ≤ 0xCF then 'I'
  else if n == 0xD1 then 'N'
  else if 0xD2 ≤ n && n ≤ 0xD6 then 'O'
  else if 0xD9 ≤ n && n ≤ 0xDC then 'U'
  else if 0xE0 ≤ n && n ≤ 0xE5 then 'a'
  else if n == 0xE7 then 'c'
  else if 0xE8 ≤ n && n ≤ 0xEB then 'e'
  else if 0xEC ≤ n && n ≤ 0xEF then 'i'
  else if n == 0xF1 then 'n'
  else if 0xF2 ≤ n && n ≤ 0xF6 then 'o'
  else if 0xF9 ≤ n && n ≤ 0xFC then 'u'
  else c

/-- `slugify` (`ingest.ts` 112-120). -/
def slugify (input : Str) : Str :=
  let dashed := slugDash false (lowerStr (input.map latinBase))
  (((dashed.dropWhile (fun c => c == '-')).reverse.dropWhile
    (fun c => c == '-')).reverse).take 80

def isLeyNumChar (c : Char) : Bool :=
  isDigitC c || isAsciiLetter c || c == '.' || c == '-'

/-- Attempt of `Ley\s+([0-9A-Za-z.-]+)\s+de\s+(\d{4})` (flag `i`) at the
start of `s`: `(number capture, year capture)`. -/
def matchLeyTitleAt (s : Str) : Option (Str × Str) :=
  match stripCi (str "ley") s with
  | none => none
  | some r1 =>
    let ws1 := r1.takeWhile isJsWs
    if ws1.isEmpty then none
    else
      let r2 := r1.drop ws1.length
      let cap := r2.takeWhile isLeyNumChar
      if cap.isEmpty then none
      else
        let r3 := r2.drop cap.length
        let ws2 := r3.takeWhile isJsWs
        if ws2.isEmpty then none
        else
          match stripCi (str "de") (r3.drop ws2.length) with
          | none => none
          | some r4 =>
            let ws3 := r4.takeWhile isJsWs
            if ws3.isEmpty then none
            else
              let r5 := r4.drop ws3.length
              let ys := r5.take 4
              if ys.length == 4 && ys.all isDigitC then some (cap, ys)
              else none

/-- `buildDynamicLawId` (`ingest.ts` 149-166): returns the chosen id and the
updated used-id set. -/
def buildDynamicLawId (entry : SearchLawEntry) (usedIds : List Str) :
    Str × List Str :=
  let base :=
    match scanLeft matchLeyTitleAt (entry.title.length + 1) entry.title with
    | some pr => str "co-ley-" ++ slugify pr.1 ++ ['-'] ++ pr.2
    | none => str "co-ley-i" ++ natStr entry.portalId
  if usedIds.contains base then
    let withPortal := base ++ str "-i" ++ natStr entry.portalId
    (withPortal, withPortal :: usedIds)
  else (base, base :: usedIds)

def padStart4 (s : Str) : Str := List.replicate (4 - s.length) '0' ++ s

/-- `buildDynamicTargetLaws` (`ingest.ts` 168-186); `number` and `year` are
not set by the source. -/
def buildDynGo : Nat → List Str → List SearchLawEntry → List TargetLaw
  | _, _, [] => []
  | idx, used, e :: rest =>
    let pr := buildDynamicLawId e used
    let safeTitle := slugify e.title
    { id := pr.1,
      fileName := padStart4 (natStr (idx + 1)) ++ ['-'] ++
        (if safeTitle.isEmpty then str "ley-i" ++ natStr e.portalId
         else safeTitle) ++ str ".json",
      portalId := e.portalId, docTypeId := 18, number := none, year := none,
      shortName := e.title, status := LawStatus.in_force } ::
      buildDynGo (idx + 1) pr.2 rest

def buildDynamicTargetLaws (entries : List SearchLawEntry) : List TargetLaw :=
  buildDynGo 0 [] entries

/-- `fetchFullLawIndex` (`ingest.ts` 188-213), driven by the discovery fetch
outcome: a thrown fetch error propagates; a non-200 status throws; otherwise
the entries and the (possibly unparsed) source count are returned.  File
writes are omitted. -/
def fetchFullLawIndex (fetched : Except Str FetchResult) :
    Except Str (List SearchLawEntry × Option (Option Nat)) :=
  match fetched with
  | Except.error e => Except.error e
  | Except.ok f =>
    if f.status ≠ 200 then
      Except.error (str "No se pudo obtener índice completo de leyes (HTTP " ++
        natStr f.status ++ str ")")
    else Except.ok (extractLawIndexFromSearchHtml f.body, parseSearchCount f.body)

/-- `BuildLawResult` (`ingest.ts` 48-52); `fullMode` is `mode === 'full_laws'`. -/
structure BuildLawResult where
  laws : List TargetLaw
  fullMode : Bool
  sourceCount : Option (Option Nat)
deriving DecidableEq

/-- The `args.limit ? base.slice(0, limit) : base` slicing (`limit` of 0 is
falsy and disables the limit). -/
def applyLimit (limit : Option Nat) (base : List TargetLaw) : List TargetLaw :=
  match limit with
  | some l => if l = 0 then base else base.take l
  | none => base

/-- `buildLawList` (`ingest.ts` 215-232): the curated path never touches the
discovery fetch; the full path propagates `fetchFullLawIndex` failures. -/
def buildLawList (fullLaws : Bool) (start : Nat) (limit : Option Nat)
    (discovery : Except Str FetchResult) : Except Str BuildLawResult :=
  if !fullLaws then
    Except.ok ⟨applyLimit limit (TARGET_LAWS.drop start), false, none⟩
  else
    match fetchFullLawIndex discovery with
    | Except.error e => Except.error e
    | Except.ok pr =>
      Except.ok ⟨applyLimit limit ((buildDynamicTargetLaws pr.1).drop start),
        true, pr.2⟩

def secOf (p : ParsedProvision) : Str := p.«section»

def bodyLen (p : ParsedProvision) : Nat := jsStrLen p.content

lemma upsert_map_sec (m : List ParsedProvision) (p : ParsedProvision) :
    (upsert m p).map secOf =
      if secOf p ∈ m.map secOf then m.map secOf
      else m.map secOf ++ [secOf p] := by
  induction m with
  | nil => simp [upsert]
  | cons q rest ih =>
    by_cases h : q.«section» = p.«section»
    · have hmem : secOf p ∈ (q :: rest).map secOf := by
        simp [secOf, h.symm]
      simp only [upsert, if_pos h, hmem, if_pos]
      by_cases hl : jsStrLen p.content > jsStrLen q.content <;>
        simp [hl, secOf, h]
    · have hne : secOf p = secOf q ↔ False := by
        simp [secOf]; exact fun hh => h hh.symm
      simp only [upsert, if_neg h, List.map_cons, ih]
      by_cases hmem : secOf p ∈ rest.map secOf <;>
        simp [hmem, hne, List.mem_cons]

lemma upsert_nodup {m : List ParsedProvision} (p : ParsedProvision)
    (h : (m.map secOf).Nodup) : ((upsert m p).map secOf).Nodup := by
  rw [upsert_map_sec]
  by_cases hmem : secOf p ∈ m.map secOf
  · simpa [hmem] using h
  · rw [if_neg hmem]
    refine List.Nodup.append h (List.nodup_singleton _) ?_
    intro a ha hb
    simp only [List.mem_singleton] at hb
    subst hb
    exact hmem ha

lemma upsert_mem {m : List ParsedProvision} {p r : ParsedProvision}
    (h : r ∈ upsert m p) : r ∈ m ∨ r = p := by
  induction m with
  | nil => simpa [upsert] using h
  | cons q rest ih =>
    by_cases hq : q.«section» = p.«section»
    · simp only [upsert, if_pos hq] at h
      rcases List.mem_cons.mp h with h1 | h1
      · by_cases hl : jsStrLen p.content > jsStrLen q.content
        · right; simpa [hl] using h1
        · left; simp [hl] at h1; simp [h1]
      · left; exact List.mem_cons_of_mem _ h1
    · simp only [upsert, if_neg hq] at h
      rcases List.mem_cons.mp h with h1 | h1
      · left; simp [h1]
      · rcases ih h1 with h2 | h2
        · left; exact List.mem_cons_of_mem _ h2
        · right; exact h2

lemma upsert_same_key_ge {m : List ParsedProvision} {p r : ParsedProvision}
    (hn : (m.map secOf).Nodup) (h : r ∈ upsert m p) (hs : secOf r = secOf p) :
    bodyLen p ≤ bodyLen r := by
  induction m with
  | nil =>
    simp [upsert] at h
    simp [h, bodyLen]
  | cons q rest ih =>
    by_cases hq : q.«section» = p.«section»
    · simp only [upsert, if_pos hq] at h
      rcases List.mem_cons.mp h with h1 | h1
      · by_cases hl : jsStrLen p.content > jsStrLen q.content
        · simp [hl] at h1; simp [h1, bodyLen]
        · simp [hl] at h1
          subst h1
          simpa [bodyLen] using Nat.le_of_not_lt hl
      · exfalso
        have hmm : secOf r ∈ rest.map secOf := List.mem_map_of_mem _ h1
        have hq2 : secOf q = secOf p := by simpa [secOf] using hq
        rw [hs, ← hq2] at hmm
        exact (List.nodup_cons.mp (by simpa using hn)).1 hmm
    · simp only [upsert, if_neg hq] at h
      rcases List.mem_cons.mp h with h1 | h1
      · exfalso
        apply hq
        have h2 : secOf r = secOf p := hs
        rw [h1] at h2
        simpa [secOf] using h2
      · exact ih (List.nodup_cons.mp (by simpa using hn)).2 h1

lemma upsert_pres {m : List ParsedProvision} {p r : ParsedProvision}
    (h : r ∈ m) (hs : secOf r ≠ secOf p) : r ∈ upsert m p := by
  induction m with
  | nil => cases h
  | cons q rest ih =>
    by_cases hq : q.«section» = p.«section»
    · simp only [upsert, if_pos hq]
      rcases List.mem_cons.mp h with h1 | h1
      · exfalso; apply hs; rw [h1]; simpa [secOf] using hq
      · exact List.mem_cons_of_mem _ h1
    · simp only [upsert, if_neg hq]
      rcases List.mem_cons.mp h with h1 | h1
      · simp [h1]
      · exact List.mem_cons_of_mem _ (ih h1)

lemma upsert_new_entry (m : List ParsedProvision) (p : ParsedProvision) :
    ∃ e ∈ upsert m p, secOf e = secOf p ∧ bodyLen p ≤ bodyLen e := by
  induction m with
  | nil => exact ⟨p, by simp [upsert], rfl, le_refl _⟩
  | cons q rest ih =>
    by_cases hq : q.«section» = p.«section»
    · refine ⟨if jsStrLen p.content > jsStrLen q.content then p else q, ?_, ?_, ?_⟩
      · simp [upsert, if_pos hq]
      · by_cases hl : jsStrLen p.content > jsStrLen q.content <;>
          simp [hl, secOf, hq]
      · by_cases hl : jsStrLen p.content > jsStrLen q.content
        · simp [hl, bodyLen]
        · simp only [if_neg hl]
          exact Nat.le_of_not_lt hl
    · obtain ⟨e, he, hes, hel⟩ := ih
      refine ⟨e, ?_, hes, hel⟩
      simp only [upsert, if_neg hq]
      exact List.mem_cons_of_mem _ he

lemma upsert_no_shrink {m : List ParsedProvision} {p : ParsedProvision}
    {s : Str} {L : Nat} (hn : (m.map secOf).Nodup)
    (h : ∃ e ∈ m, secOf e = s ∧ L ≤ bodyLen e) :
    ∃ e ∈ upsert m p, secOf e = s ∧ L ≤ bodyLen e := by
  obtain ⟨e, he, hes, hel⟩ := h
  by_cases hsp : s = secOf p
  · subst hsp
    induction m with
    | nil => cases he
    | cons q rest ih =>
      by_cases hq : q.«section» = p.«section»
      · rcases List.mem_cons.mp he with h1 | h1
        · refine ⟨if jsStrLen p.content > jsStrLen q.content then p else q,
            ?_, ?_, ?_⟩
          · simp [upsert, if_pos hq]
          · by_cases hl : jsStrLen p.content > jsStrLen q.content <;>
              simp [hl, secOf, hq]
          · have helq : L ≤ bodyLen q := by rw [← h1]; exact hel
            by_cases hl : jsStrLen p.content > jsStrLen q.content
            · simp only [if_pos hl]
              exact le_trans helq (Nat.le_of_lt hl)
            · simp only [if_neg hl]
              exact helq
        · exfalso
          have hq2 : secOf q = secOf p := by simpa [secOf] using hq
          have hmm : secOf e ∈ rest.map secOf := List.mem_map_of_mem _ h1
          rw [hes, ← hq2] at hmm
          exact (List.nodup_cons.mp (by simpa using hn)).1 hmm
      · rcases List.mem_cons.mp he with h1 | h1
        · exfalso
          apply hq
          have h2 := hes
          rw [h1] at h2
          simpa [secOf] using h2
        · obtain ⟨e2, he2, hes2, hel2⟩ :=
            ih (List.nodup_cons.mp (by simpa using hn)).2 h1
          refine ⟨e2, ?_, hes2, hel2⟩
          simp only [upsert, if_neg hq]
          exact List.mem_cons_of_mem _ he2
  · refine ⟨e, upsert_pres he ?_, hes, hel⟩
    rw [hes]
    exact hsp

lemma foldl_upsert_nodup (ps : List ParsedProvision) :
    ∀ acc, ((acc.map secOf).Nodup) →
      (((ps.foldl upsert acc).map secOf).Nodup) := by
  induction ps with
  | nil => intro acc h; simpa using h
  | cons p rest ih =>
    intro acc h
    simpa using ih (upsert acc p) (upsert_nodup p h)

lemma foldl_upsert_mem (ps : List ParsedProvision) :
    ∀ acc r, r ∈ ps.foldl upsert acc → r ∈ acc ∨ r ∈ ps := by
  induction ps with
  | nil => intro acc r h; left; simpa using h
  | cons p rest ih =>
    intro acc r h
    rcases ih (upsert acc p) r (by simpa using h) with h1 | h1
    · rcases upsert_mem h1 with h2 | h2
      · left; exact h2
      · right; simp [h2]
    · right; exact List.mem_cons_of_mem _ h1

lemma foldl_upsert_no_shrink (ps : List ParsedProvision) :
    ∀ acc {s L}, ((acc.map secOf).Nodup) →
      (∃ e ∈ acc, secOf e = s ∧ L ≤ bodyLen e) →
      ∃ e ∈ ps.foldl upsert acc, secOf e = s ∧ L ≤ bodyLen e := by
  induction ps with
  | nil => intro acc s L _ h; simpa using h
  | cons p rest ih =>
    intro acc s L hn h
    simpa using ih (upsert acc p) (upsert_nodup p hn) (upsert_no_shrink hn h)

lemma foldl_upsert_covers (ps : List ParsedProvision) :
    ∀ acc, ((acc.map secOf).Nodup) → ∀ q ∈ ps,
      ∃ e ∈ ps.foldl upsert acc, secOf e = secOf q ∧ bodyLen q ≤ bodyLen e := by
  induction ps with
  | nil => intro acc _ q hq; cases hq
  | cons p rest ih =>
    intro acc hn q hq
    rcases List.mem_cons.mp hq with h1 | h1
    · subst h1
      simpa using foldl_upsert_no_shrink rest (upsert acc q)
        (upsert_nodup q hn) (upsert_new_entry acc q)
    · simpa using ih (upsert acc p) (upsert_nodup p hn) q h1

lemma dedupe_nodup (ps : List ParsedProvision) :
    ((dedupeBySection ps).map secOf).Nodup :=
  foldl_upsert_nodup ps [] (by simp)

lemma dedupe_mem {ps : List ParsedProvision} {r : ParsedProvision}
    (h : r ∈ dedupeBySection ps) : r ∈ ps := by
  rcases foldl_upsert_mem ps [] r h with h1 | h1
  · cases h1
  · exact h1

lemma dedupe_max {ps : List ParsedProvision} {r : ParsedProvision}
    (hr : r ∈ dedupeBySection ps) :
    ∀ q ∈ ps, secOf q = secOf r → bodyLen q ≤ bodyLen r := by
  intro q hq hs
  obtain ⟨e, he, hes, hel⟩ := foldl_upsert_covers ps [] (by simp) q hq
  have : e = r := by
    refine List.inj_on_of_nodup_map (dedupe_nodup ps) he hr ?_
    rw [hes, hs]
  rw [← this]
  exact hel

/-- A provision surviving the flush either was already accumulated or passed
the 20-character minimum and carries the derived reference slug. -/
lemma mem_flushState_acc {st : SegState} {p : ParsedProvision}
    (h : p ∈ (flushState st).acc) :
    p ∈ st.acc ∨ (20 ≤ bodyLen p ∧ p.provision_ref = toProvisionRef p.«section») := by
  unfold flushState at h
  cases ha : st.active
  case none => rw [ha] at h; left; exact h
  case some a =>
    rw [ha] at h
    dsimp at h
    by_cases hl : jsStrLen (normalizeWhitespace (joinBlocks a.blocks)) < 20
    · rw [if_pos hl] at h; left; exact h
    · rw [if_neg hl] at h
      dsimp at h
      rcases List.mem_append.mp h with h1 | h1
      · left; exact h1
      · right
        simp only [List.mem_singleton] at h1
        subst h1
        exact ⟨Nat.le_of_not_lt hl, rfl⟩

lemma mem_segStep_acc {st : SegState} {p : ParsedProvision} {par : Str}
    (h : p ∈ (segStep st par).acc) :
    p ∈ st.acc ∨ (20 ≤ bodyLen p ∧ p.provision_ref = toProvisionRef p.«section») := by
  unfold segStep at h
  by_cases hc : chapterTest par ∧ jsStrLen par ≤ 140
  · rw [if_pos hc] at h; left; exact h
  · rw [if_neg hc] at h
    cases hm : matchArticle par with
    | none =>
      rw [hm] at h
      cases ha : st.active
      · rw [ha] at h; left; exact h
      · rw [ha] at h; left; exact h
    | some g1 =>
      rw [hm] at h
      dsimp at h
      exact mem_flushState_acc h

lemma segment_fold_inv (ps : List Str) :
    ∀ st, (∀ p ∈ st.acc, 20 ≤ bodyLen p ∧
        p.provision_ref = toProvisionRef p.«section») →
      ∀ p ∈ (ps.foldl segStep st).acc,
        20 ≤ bodyLen p ∧ p.provision_ref = toProvisionRef p.«section» := by
  induction ps with
  | nil => intro st h p hp; exact h p (by simpa using hp)
  | cons par rest ih =>
    intro st h p hp
    refine ih (segStep st par) ?_ p (by simpa using hp)
    intro q hq
    rcases mem_segStep_acc hq with h1 | h1
    · exact h q h1
    · exact h1

/-- Every candidate provision produced by the forward pass has a body of at
least 20 characters and the reference slug derived from its section. -/
lemma segmentParagraphs_inv {ps : List Str} {p : ParsedProvision}
    (h : p ∈ segmentParagraphs ps) :
    20 ≤ bodyLen p ∧ p.provision_ref = toProvisionRef p.«section» := by
  unfold segmentParagraphs at h
  rcases mem_flushState_acc h with h1 | h1
  · exact segment_fold_inv ps initSeg (by intro q hq; cases hq) p h1
  · exact h1

/-- Invariant carried through the definition-extraction folds: every
collected definition satisfies the length bounds, terms are pairwise distinct
case-insensitively, and every collected term's key is in the `seen` set. -/
def DefnInv (st : List ParsedDefinition × List Str) : Prop :=
  (∀ d ∈ st.1, 2 ≤ jsStrLen d.term ∧ jsStrLen d.term ≤ 120 ∧
    8 ≤ jsStrLen d.definition) ∧
  List.Pairwise (fun a b => lowerStr a.term ≠ lowerStr b.term) st.1 ∧
  (∀ d ∈ st.1, lowerStr d.term ∈ st.2)

lemma defnStep_inv {st : List ParsedDefinition × List Str} {provRef : Str}
    {cand : Str × Str} (h : DefnInv st) : DefnInv (defnStep provRef st cand) := by
  obtain ⟨hb, hp, hs⟩ := h
  unfold defnStep
  dsimp only
  split_ifs with h1 h2 h3
  · exact ⟨hb, hp, hs⟩
  · exact ⟨hb, hp, hs⟩
  · exact ⟨hb, hp, hs⟩
  · simp only [Bool.or_eq_true, decide_eq_true_eq, not_or] at h1
    simp only [decide_eq_true_eq, not_lt] at h2
    refine ⟨?_, ?_, ?_⟩
    · intro d hd
      rcases List.mem_append.mp hd with hd1 | hd1
      · exact hb d hd1
      · simp only [List.mem_singleton] at hd1
        subst hd1
        exact ⟨Nat.le_of_not_lt h1.1, Nat.le_of_not_lt h1.2, h2⟩
    · rw [List.pairwise_append]
      refine ⟨hp, List.pairwise_singleton _ _, ?_⟩
      intro a ha b hbm
      simp only [List.mem_singleton] at hbm
      subst hbm
      intro hEq
      apply h3
      have := hs a ha
      rw [hEq] at this
      simpa [List.contains] using this
    · intro d hd
      rcases List.mem_append.mp hd with hd1 | hd1
      · exact List.mem_cons_of_mem _ (hs d hd1)
      · simp only [List.mem_singleton] at hd1
        subst hd1
        exact List.mem_cons_self _ _

lemma defnFold_inv (cands : List (Str × Str)) (provRef : Str) :
    ∀ st, DefnInv st → DefnInv (cands.foldl (defnStep provRef) st) := by
  induction cands with
  | nil => intro st h; simpa using h
  | cons c rest ih =>
    intro st h
    simpa using ih (defnStep provRef st c) (defnStep_inv h)

lemma defnProvStep_inv {st : List ParsedDefinition × List Str}
    {p : ParsedProvision} (h : DefnInv st) : DefnInv (defnProvStep st p) := by
  unfold defnProvStep
  dsimp only
  split_ifs with h1
  · exact h
  · exact defnFold_inv _ _ st h

lemma defnOuter_inv (provisions : List ParsedProvision) :
    DefnInv (provisions.foldl defnProvStep (([], []) :
      List ParsedDefinition × List Str)) := by
  have base : DefnInv (([], []) : List ParsedDefinition × List Str) := by
    refine ⟨?_, ?_, ?_⟩ <;> simp
  revert base
  generalize (([], []) : List ParsedDefinition × List Str) = st
  induction provisions generalizing st with
  | nil => intro h; simpa using h
  | cons p rest ih =>
    intro h
    simpa using ih (defnProvStep st p) (defnProvStep_inv h)

def idOf (l : TargetLaw) : Str := l.id

lemma runRoundGo_map_not_mem (oracle : TargetLaw → Nat → IngestResult)
    (round : Nat) (pending : List TargetLaw) :
    ∀ (m : Str → Option IngestResult) (k : Str), k ∉ pending.map idOf →
      (runRoundGo oracle round pending m).1 k = m k := by
  induction pending with
  | nil => intro m k _; rfl
  | cons law rest ih =>
    intro m k hk
    simp only [List.map_cons, List.mem_cons, not_or, idOf] at hk
    simp only [runRoundGo]
    rw [ih _ k (by simpa [idOf] using hk.2)]
    simp only [updateRes]
    rw [if_neg hk.1]

lemma runRoundGo_map_mem (oracle : TargetLaw → Nat → IngestResult)
    (round : Nat) (pending : List TargetLaw) :
    ∀ (m : Str → Option IngestResult) (law : TargetLaw), law ∈ pending →
      (pending.map idOf).Nodup →
      (runRoundGo oracle round pending m).1 law.id =
        some (oracle law round) := by
  induction pending with
  | nil => intro m law h; cases h
  | cons q rest ih =>
    intro m law hmem hnd
    have hnd2 : idOf q ∉ rest.map idOf ∧ (rest.map idOf).Nodup := by
      rw [List.map_cons] at hnd
      exact List.nodup_cons.mp hnd
    rcases List.mem_cons.mp hmem with h1 | h1
    · subst h1
      simp only [runRoundGo]
      rw [runRoundGo_map_not_mem oracle round rest _ law.id hnd2.1]
      simp [updateRes]
    · have hne : law.id ≠ q.id := by
        intro hEq
        apply hnd2.1
        have hmm : idOf law ∈ rest.map idOf := List.mem_map_of_mem idOf h1
        have hql : idOf q = idOf law := by simp [idOf, hEq]
        rw [hql]
        exact hmm
      simp only [runRoundGo]
      exact ih _ law h1 hnd2.2

lemma runRoundGo_pending (oracle : TargetLaw → Nat → IngestResult)
    (round : Nat) (pending : List TargetLaw) :
    ∀ m, (runRoundGo oracle round pending m).2 =
      pending.filter (fun law =>
        (oracle law round).status == IngStatus.failed) := by
  induction pending with
  | nil => intro m; rfl
  | cons law rest ih =>
    intro m
    simp only [runRoundGo, List.filter_cons]
    by_cases h : (oracle law round).status = IngStatus.failed
    · simp [h, ih]
    · have hb : ((oracle law round).status == IngStatus.failed) = false := by
        simpa using h
      simp [hb, ih, h]

lemma ing_status_dichotomy (s : IngStatus) :
    s = IngStatus.ok ∨ s = IngStatus.failed := by
  cases s
  · left; rfl
  · right; rfl

lemma id_not_mem_of_not_mem {laws sub : List TargetLaw} {law : TargetLaw}
    (hnd : (laws.map idOf).Nodup) (hsub : sub ⊆ laws) (hlaw : law ∈ laws)
    (hnot : law ∉ sub) : law.id ∉ sub.map idOf := by
  intro hmm
  obtain ⟨q, hq, hq2⟩ := List.mem_map.mp hmm
  have : q = law :=
    List.inj_on_of_nodup_map hnd (hsub hq) hlaw hq2
  exact hnot (this ▸ hq)

lemma filterMap_eq_map_of_some {α β : Type} {g : α → Option β} {f : α → β} :
    ∀ l : List α, (∀ a ∈ l, g a = some (f a)) → l.filterMap g = l.map f := by
  intro l
  induction l with
  | nil => intro _; rfl
  | cons a rest ih =>
    intro h
    rw [List.filterMap_cons, h a (List.mem_cons_self a rest), List.map_cons,
      ih (fun b hb => h b (List.mem_cons_of_mem _ hb))]

lemma runIngestion_final_lookup (oracle : TargetLaw → Nat → IngestResult)
    (laws : List TargetLaw) (hnd : (laws.map idOf).Nodup) (law : TargetLaw)
    (hmem : law ∈ laws) :
    (runRoundGo oracle 3
        (runRoundGo oracle 2 (runRoundGo oracle 1 laws (fun _ => none)).2
          (runRoundGo oracle 1 laws (fun _ => none)).1).2
        (runRoundGo oracle 2 (runRoundGo oracle 1 laws (fun _ => none)).2
          (runRoundGo oracle 1 laws (fun _ => none)).1).1).1 law.id =
      some (oracle law (finalRoundOf oracle law)) := by
  have hp1 : (runRoundGo oracle 1 laws (fun _ => none)).2 =
      laws.filter (fun l => (oracle l 1).status == IngStatus.failed) :=
    runRoundGo_pending oracle 1 laws _
  have hp2 : (runRoundGo oracle 2 (runRoundGo oracle 1 laws (fun _ => none)).2
        (runRoundGo oracle 1 laws (fun _ => none)).1).2 =
      (laws.filter (fun l => (oracle l 1).status == IngStatus.failed)).filter
        (fun l => (oracle l 2).status == IngStatus.failed) := by
    rw [hp1]
    exact runRoundGo_pending oracle 2 _ _
  have hnd1 : ((laws.filter
      (fun l => (oracle l 1).status == IngStatus.failed)).map idOf).Nodup :=
    List.Nodup.sublist (List.Sublist.map idOf (List.filter_sublist laws)) hnd
  have hnd2 : (((laws.filter
      (fun l => (oracle l 1).status == IngStatus.failed)).filter
        (fun l => (oracle l 2).status == IngStatus.failed)).map idOf).Nodup :=
    List.Nodup.sublist (List.Sublist.map idOf (List.filter_sublist _)) hnd1
  have hsub1 : (laws.filter
      (fun l => (oracle l 1).status == IngStatus.failed)) ⊆ laws :=
    (List.filter_sublist laws).subset
  have hsub2 : ((laws.filter
      (fun l => (oracle l 1).status == IngStatus.failed)).filter
        (fun l => (oracle l 2).status == IngStatus.failed)) ⊆
      (laws.filter (fun l => (oracle l 1).status == IngStatus.failed)) :=
    (List.filter_sublist _).subset
  rcases ing_status_dichotomy (oracle law 1).status with c1 | c1
  · have hnot1 : law ∉ laws.filter
        (fun l => (oracle l 1).status == IngStatus.failed) := by
      intro hc
      have hc2 := (List.mem_filter.mp hc).2
      rw [c1] at hc2
      cases hc2
    have hid1 : law.id ∉ (laws.filter
        (fun l => (oracle l 1).status == IngStatus.failed)).map idOf :=
      id_not_mem_of_not_mem hnd hsub1 hmem hnot1
    have hnot2 : law ∉ (laws.filter
        (fun l => (oracle l 1).status == IngStatus.failed)).filter
          (fun l => (oracle l 2).status == IngStatus.failed) :=
      fun hc => hnot1 (hsub2 hc)
    have hid2 : law.id ∉ ((laws.filter
        (fun l => (oracle l 1).status == IngStatus.failed)).filter
          (fun l => (oracle l 2).status == IngStatus.failed)).map idOf :=
      id_not_mem_of_not_mem hnd (fun x hx => hsub1 (hsub2 hx)) hmem hnot2
    rw [hp2, runRoundGo_map_not_mem oracle 3 _ _ law.id hid2, hp1,
      runRoundGo_map_not_mem oracle 2 _ _ law.id hid1,
      runRoundGo_map_mem oracle 1 laws _ law hmem hnd]
    simp only [finalRoundOf, if_pos c1]
  · have hne1 : ¬(oracle law 1).status = IngStatus.ok := by
      rw [c1]; intro hc; cases hc
    have hmem1 : law ∈ laws.filter
        (fun l => (oracle l 1).status == IngStatus.failed) :=
      List.mem_filter.mpr ⟨hmem, by simp [c1]⟩
    rcases ing_status_dichotomy (oracle law 2).status with c2 | c2
    · have hnot2 : law ∉ (laws.filter
          (fun l => (oracle l 1).status == IngStatus.failed)).filter
            (fun l => (oracle l 2).status == IngStatus.failed) := by
        intro hc
        have hc2 := (List.mem_filter.mp hc).2
        rw [c2] at hc2
        cases hc2
      have hid2 : law.id ∉ ((laws.filter
          (fun l => (oracle l 1).status == IngStatus.failed)).filter
            (fun l => (oracle l 2).status == IngStatus.failed)).map idOf :=
        id_not_mem_of_not_mem hnd1 hsub2 hmem1 hnot2
      rw [hp2, runRoundGo_map_not_mem oracle 3 _ _ law.id hid2, hp1,
        runRoundGo_map_mem oracle 2 _ _ law hmem1 hnd1]
      simp only [finalRoundOf, if_neg hne1, if_pos c2]
    · have hmem2 : law ∈ (laws.filter
          (fun l => (oracle l 1).status == IngStatus.failed)).filter
            (fun l => (oracle l 2).status == IngStatus.failed) :=
        List.mem_filter.mpr ⟨hmem1, by simp [c2]⟩
      have hne2 : ¬(oracle law 2).status = IngStatus.ok := by
        rw [c2]; intro hc; cases hc
      rw [hp2, runRoundGo_map_mem oracle 3 _ _ law hmem2 hnd2]
      simp only [finalRoundOf, if_neg hne1, if_neg hne2]

lemma range_map_pow_succ (a k : Nat) :
    (List.range (k + 1)).map (fun i => 2 ^ (a + i + 1) * 1000) =
      (2 ^ (a + 1) * 1000) ::
        (List.range k).map (fun i => 2 ^ (a + 1 + i + 1) * 1000) := by
  rw [List.range_succ_eq_map, List.map_cons, List.map_map]
  refine congrArg₂ _ (by norm_num) ?_
  refine List.map_congr_left ?_
  intro i _
  have : a + (i + 1) + 1 = a + 1 + i + 1 := by omega
  simp [Function.comp, Nat.succ_eq_add_one, this]

lemma fetchLoop_closed (url : Str) (m : Nat) :
    ∀ (outs : List NetOutcome) (a : Nat), a ≤ m → a + outs.length = m + 1 →
      fetchLoop m url a outs =
        (finalizeOutcome url
           (outs.getD (min (m - a) (countLeadRetryable outs)) (NetOutcome.err [])),
         (List.range (min (m - a) (countLeadRetryable outs))).map
           (fun i => 2 ^ (a + i + 1) * 1000)) := by
  intro outs
  induction outs with
  | nil =>
    intro a ha hlen
    exact absurd hlen (by simp; omega)
  | cons o rest ih =>
    intro a ha hlen
    have hlen' : a + 1 + rest.length = m + 1 := by
      simp only [List.length_cons] at hlen
      omega
    cases o with
    | resp r =>
      by_cases hc : (r.status = 429 ∨ 500 ≤ r.status) ∧ a < m
      · have hretry : isRetryableOutcome (NetOutcome.resp r) = true := by
          rcases hc.1 with h | h <;> simp [isRetryableOutcome, h]
        have hcl : countLeadRetryable (NetOutcome.resp r :: rest) =
            countLeadRetryable rest + 1 := by
          simp [countLeadRetryable, hretry]
        have hmin : min (m - a) (countLeadRetryable rest + 1) =
            min (m - (a + 1)) (countLeadRetryable rest) + 1 := by
          omega
        simp only [fetchLoop, if_pos hc]
        rw [ih (a + 1) (by omega) hlen']
        rw [hcl, hmin, List.getD_cons_succ, range_map_pow_succ]
      · have hterm : min (m - a)
            (countLeadRetryable (NetOutcome.resp r :: rest)) = 0 := by
          rcases not_and_or.mp hc with h | h
          · have : isRetryableOutcome (NetOutcome.resp r) = false := by
              simp only [isRetryableOutcome, Bool.or_eq_false_iff,
                beq_eq_false_iff_ne, ne_eq, decide_eq_false_iff_not]
              exact ⟨fun hh => h (Or.inl hh), fun hh => h (Or.inr hh)⟩
            simp [countLeadRetryable, this]
          · have : m - a = 0 := by omega
            simp [this]
        simp only [fetchLoop, if_neg hc]
        rw [hterm]
        simp [finalizeOutcome]
    | err msg =>
      by_cases hc : a < m
      · have hcl : countLeadRetryable (NetOutcome.err msg :: rest) =
            countLeadRetryable rest + 1 := by
          simp [countLeadRetryable, isRetryableOutcome]
        have hmin : min (m - a) (countLeadRetryable rest + 1) =
            min (m - (a + 1)) (countLeadRetryable rest) + 1 := by
          omega
        simp only [fetchLoop, if_pos hc]
        rw [ih (a + 1) (by omega) hlen']
        rw [hcl, hmin, List.getD_cons_succ, range_map_pow_succ]
      · have hma : m - a = 0 := by omega
        simp only [fetchLoop, if_neg hc]
        rw [hma]
        simp [finalizeOutcome]

def defaultLaw : TargetLaw := ⟨[], [], 0, 0, none, none, [], LawStatus.in_force⟩

def curated0 : TargetLaw := TARGET_LAWS.headD defaultLaw

/-- C1 counterexample: on the input `&#1114112;` (a numeric character
reference just above `U+10FFFF`), the designated content container is absent,
yet `parseNormaHtml` does not return a zero-provision `ParsedAct` — it throws
the `RangeError` of `String.fromCodePoint` raised inside
`decodeHtmlEntities`, contradicting the claim that it returns a `ParsedAct`
without throwing for every input HTML string. -/
theorem parseNormaHtml_throws_on_invalid_numeric_ref :
    extractClassBlock (str "&#1114112;") = none ∧
    parseNormaHtml (str "&#1114112;") curated0 =
      Except.error (str "RangeError: Invalid code point") :=
  ⟨by decide, by decide⟩

/-- C1 amended: when HTML-entity decoding succeeds on the fragments the
parser decodes (title, description, publication date, paragraphs),
`parseNormaHtml` returns a `ParsedAct`; in particular, when the
`descripcion-contenido` container is absent it returns the act with zero
provisions and zero definitions rather than an error. -/
theorem parseNormaHtml_total_when_decode_succeeds (html : Str)
    (law : TargetLaw) (t : Str) (d : Option Str) (i : Option Str)
    (ht : extractTitle html = Except.ok t)
    (hd : extractDescription html = Except.ok d)
    (hi : parseDateFromMedioPublicacion html = Except.ok i) :
    ((extractProvisions ((extractClassBlock html).getD [])).isOk →
      (parseNormaHtml html law).isOk) ∧
    (extractClassBlock html = none →
      parseNormaHtml html law = Except.ok
        { id := law.id, type := str "statute", title := t,
          short_name := law.shortName, status := law.status,
          issued_date := i, in_force_date := i,
          url := normaBaseUrl ++ str "/norma.php?i=" ++ natStr law.portalId,
          description := d, provisions := [], definitions := [] }) := by
  constructor
  · intro hp
    unfold parseNormaHtml
    rw [ht, hd, hi]
    cases hok : extractProvisions ((extractClassBlock html).getD []) with
    | error e =>
      rw [hok] at hp
      cases hp
    | ok provisions =>
      simp [hok, Except.isOk, Except.toBool, bind, Except.bind, pure, Except.pure]
  · intro hnone
    unfold parseNormaHtml
    rw [ht, hd, hi, hnone]
    rfl

/-- C1 witness: a page with no content container parses to an act with zero
provisions and zero definitions. -/
theorem parseNormaHtml_total_when_decode_succeeds_witness :
    parseNormaHtml (str "<p>parrafo sin contenedor</p>") curated0 =
      Except.ok
        { id := curated0.id, type := str "statute",
          title := str "Norma sin título",
          short_name := curated0.shortName, status := curated0.status,
          issued_date := none, in_force_date := none,
          url := normaBaseUrl ++ str "/norma.php?i=" ++ natStr curated0.portalId,
          description := none, provisions := [], definitions := [] } :=
  (parseNormaHtml_total_when_decode_succeeds
    (str "<p>parrafo sin contenedor</p>") curated0 (str "Norma sin título")
    none none (by decide) (by decide) (by decide)).2 (by decide)

/-- C2: for every input document, the provisions returned by
`extractProvisions` have pairwise-distinct normalized section values, every
returned provision is one of the candidates of the forward pass, and it is a
longest-bodied candidate among those sharing its section. -/
theorem extractProvisions_dedup_invariant (c : Str)
    (out : List ParsedProvision) (h : extractProvisions c = Except.ok out) :
    ((out.map secOf).Nodup) ∧
    (∃ ps, extractParagraphs c = Except.ok ps ∧
      out = dedupeBySection (segmentParagraphs ps) ∧
      ∀ r ∈ out, r ∈ segmentParagraphs ps ∧
        ∀ q ∈ segmentParagraphs ps, secOf q = secOf r →
          bodyLen q ≤ bodyLen r) := by
  unfold extractProvisions at h
  cases hps : extractParagraphs c with
  | error e =>
    rw [hps] at h
    cases h
  | ok ps =>
    rw [hps] at h
    simp only [Except.map] at h
    have hout : out = dedupeBySection (segmentParagraphs ps) := by
      cases h
      rfl
    subst hout
    refine ⟨dedupe_nodup _, ps, rfl, rfl, ?_⟩
    intro r hr
    exact ⟨dedupe_mem hr, dedupe_max hr⟩

def c2Doc : Str :=
  str "<p>Artículo 1. Cuerpo corto pero valido aqui.</p><p>Artículo 1. Cuerpo mucho mas largo que el anterior para ganar.</p>"

def c2Out : List ParsedProvision :=
  [{ provision_ref := str "art1", chapter := none, «section» := str "1",
     title := str "Artículo 1",
     content := str "Artículo 1. Cuerpo mucho mas largo que el anterior para ganar." }]

/-- C2 witness: a document with two candidate blocks for section `1` keeps
only the longer-bodied one. -/
theorem extractProvisions_dedup_invariant_witness :
    ((c2Out.map secOf).Nodup) ∧
    (∃ ps, extractParagraphs c2Doc = Except.ok ps ∧
      c2Out = dedupeBySection (segmentParagraphs ps) ∧
      ∀ r ∈ c2Out, r ∈ segmentParagraphs ps ∧
        ∀ q ∈ segmentParagraphs ps, secOf q = secOf r →
          bodyLen q ≤ bodyLen r) :=
  extractProvisions_dedup_invariant c2Doc c2Out (by decide)

/-- C6: every provision emitted by the parser has a body of at least 20
UTF-16 units, and a flush of an active provision whose accumulated body is
shorter than 20 discards it, leaving the accumulated output unchanged. -/
theorem extractProvisions_min_body_length (c : Str)
    (out : List ParsedProvision) (h : extractProvisions c = Except.ok out) :
    (∀ p ∈ out, 20 ≤ jsStrLen p.content) ∧
    (∀ (st : SegState) (a : ActiveProv), st.active = some a →
      jsStrLen (normalizeWhitespace (joinBlocks a.blocks)) < 20 →
      flushState st = { st with active := none }) := by
  constructor
  · intro p hp
    unfold extractProvisions at h
    cases hps : extractParagraphs c with
    | error e =>
      rw [hps] at h
      cases h
    | ok ps =>
      rw [hps] at h
      simp only [Except.map] at h
      have hout : out = dedupeBySection (segmentParagraphs ps) := by
        cases h
        rfl
      subst hout
      exact (segmentParagraphs_inv (dedupe_mem hp)).1
  · intro st a ha hshort
    unfold flushState
    rw [ha]
    dsimp only
    rw [if_pos hshort]

def c6Doc : Str :=
  str "<p>Artículo 7. Texto suficientemente largo para pasar el filtro.</p><p>Artículo 8. corto</p>"

def c6Out : List ParsedProvision :=
  [{ provision_ref := str "art7", chapter := none, «section» := str "7",
     title := str "Artículo 7",
     content := str "Artículo 7. Texto suficientemente largo para pasar el filtro." }]

/-- C6 witness: the 17-character candidate for article 8 is discarded; the
emitted provision meets the 20-character minimum. -/
theorem extractProvisions_min_body_length_witness :
    (∀ p ∈ c6Out, 20 ≤ jsStrLen p.content) ∧
    (∀ (st : SegState) (a : ActiveProv), st.active = some a →
      jsStrLen (normalizeWhitespace (joinBlocks a.blocks)) < 20 →
      flushState st = { st with active := none }) :=
  extractProvisions_min_body_length c6Doc c6Out (by decide)

/-- C7: every definition returned by `extractDefinitions` has a term of
length between 2 and 120 and a definition of length at least 8, terms are
pairwise distinct under case-insensitive comparison, and at most 80
definitions are returned. -/
theorem extractDefinitions_invariants (provisions : List ParsedProvision) :
    (∀ d ∈ extractDefinitions provisions,
      2 ≤ jsStrLen d.term ∧ jsStrLen d.term ≤ 120 ∧
        8 ≤ jsStrLen d.definition) ∧
    List.Pairwise (fun a b => lowerStr a.term ≠ lowerStr b.term)
      (extractDefinitions provisions) ∧
    (extractDefinitions provisions).length ≤ 80 := by
  have hinv := defnOuter_inv provisions
  unfold extractDefinitions
  refine ⟨?_, ?_, ?_⟩
  · intro d hd
    exact hinv.1 d (List.mem_of_mem_take hd)
  · exact List.Pairwise.sublist (List.take_sublist _ _) hinv.2.1
  · exact List.length_take_le _ _

/-- C3: in the forward segmentation pass, a heading paragraph of length at
most 140 only updates the chapter context (nothing is emitted, the active
provision is untouched); an article-opening paragraph flushes and starts a
provision whose section is the normalized designator and whose chapter is
the current context, and every emitted provision's reference is the slug of
its section; scenario A (two articles, no heading) yields two provisions
with references derived from `1` and `2` and chapter unset; scenario B (a
`CAPÍTULO I` heading before article 3) yields one provision whose chapter is
the heading text. -/
theorem segmentation_pass_semantics :
    (∀ (st : SegState) (p : Str), chapterTest p = true → jsStrLen p ≤ 140 →
      segStep st p = { st with currentChapter := some p }) ∧
    (∀ (st : SegState) (p : Str) (g1 : Str),
      ¬(chapterTest p ∧ jsStrLen p ≤ 140) → matchArticle p = some g1 →
      segStep st p = { flushState st with
        active := some ⟨normalizeSection g1, st.currentChapter, [p]⟩ }) ∧
    (∀ (p : ParsedProvision) (ps : List Str), p ∈ segmentParagraphs ps →
      p.provision_ref = toProvisionRef p.«section») ∧
    ((parseNormaHtml (str "<html><div class=\"descripcion-contenido\"><p>Artículo 1°. Objeto. Texto de ejemplo suficiente.</p><p>Artículo 2. Texto del segundo artículo.</p></div></html>") curated0).map
        (fun a => a.provisions.map (fun p => (p.provision_ref, p.«section», p.chapter))) =
      Except.ok [(toProvisionRef (normalizeSection (str "1")), str "1", none),
                 (toProvisionRef (normalizeSection (str "2")), str "2", none)]) ∧
    ((parseNormaHtml (str "<html><div class=\"descripcion-contenido\"><p>CAPÍTULO I</p><p>Artículo 3. Contenido del tercer artículo.</p></div></html>") curated0).map
        (fun a => a.provisions.map (fun p => (p.provision_ref, p.chapter))) =
      Except.ok [(toProvisionRef (normalizeSection (str "3")),
                  some (str "CAPÍTULO I"))]) := by
  refine ⟨?_, ?_, ?_, by decide, by decide⟩
  · intro st p hc hl
    unfold segStep
    rw [if_pos ⟨hc, hl⟩]
  · intro st p g1 hc hm
    unfold segStep
    rw [if_neg hc, hm]
  · intro p ps hp
    exact (segmentParagraphs_inv hp).2

/-- C3 witness: the step equations instantiated on a concrete heading and a
concrete article-opening paragraph. -/
theorem segmentation_pass_semantics_witness :
    segStep initSeg (str "CAPÍTULO II") =
      { initSeg with currentChapter := some (str "CAPÍTULO II") } ∧
    segStep initSeg (str "Artículo 4. Texto.") =
      { flushState initSeg with
        active := some ⟨normalizeSection (str "4"), none,
          [str "Artículo 4. Texto."]⟩ } :=
  ⟨segmentation_pass_semantics.1 initSeg (str "CAPÍTULO II") (by decide)
      (by decide),
    segmentation_pass_semantics.2.1 initSeg (str "Artículo 4. Texto.")
      (str "4") (by decide) (by decide)⟩

def c4Text : Str :=
  str "Medio de Publicación: Diario Oficial de brumario 18 de 2012. Medio de Publicación: Diario Oficial del 18 de enero de 2012."

/-- C4 counterexample: this text contains a publication-medium sentence in
the supported day-before-month order with the table month `enero` (the
second pattern resolves it to `18 enero 2012`), yet
`parseDateFromMedioPublicacion` returns no date: the first (month-first)
pattern matches earlier in the text with the unknown month `brumario` and
returns immediately.  This contradicts the claim that every input containing
a date in either supported order with a table month yields the ISO date. -/
theorem parseDate_first_pattern_shadows_second :
    searchP2 (normalizeWhitespace c4Text) =
      some (str "18", str "enero", str "2012") ∧
    List.lookup (lowerStr (str "enero")) monthsES = some (str "01") ∧
    parseDateFromMedioPublicacion c4Text = Except.ok none :=
  ⟨by decide, by decide, by decide⟩

/-- C4 amended: when entity decoding succeeds, the function never throws; if
the first (month-first) pattern finds a match, a table month yields the ISO
date and an unknown month yields no date (the second pattern is not
consulted); if the first pattern finds no match, the second (day-first)
pattern decides likewise; with no match at all the date is unset.  The
concrete sentence `... del 18 de enero de 2012` yields `2012-01-18`, and
every month of the lookup table resolves in both phrase orders. -/
theorem parseDate_amended (html : Str) (dec : Str)
    (hdec : decodeHtmlEntities (stripTags html) = Except.ok dec) :
    ((parseDateFromMedioPublicacion html).isOk) ∧
    (∀ m dd y mm, searchP1 (normalizeWhitespace dec) = some (m, dd, y) →
      List.lookup (lowerStr m) monthsES = some mm →
      parseDateFromMedioPublicacion html =
        Except.ok (some (y ++ ['-'] ++ mm ++ ['-'] ++ padDay dd))) ∧
    (∀ dd m y mm, searchP1 (normalizeWhitespace dec) = none →
      searchP2 (normalizeWhitespace dec) = some (dd, m, y) →
      List.lookup (lowerStr m) monthsES = some mm →
      parseDateFromMedioPublicacion html =
        Except.ok (some (y ++ ['-'] ++ mm ++ ['-'] ++ padDay dd))) ∧
    (∀ dd m y, searchP1 (normalizeWhitespace dec) = none →
      searchP2 (normalizeWhitespace dec) = some (dd, m, y) →
      List.lookup (lowerStr m) monthsES = none →
      parseDateFromMedioPublicacion html = Except.ok none) ∧
    (searchP1 (normalizeWhitespace dec) = none →
      searchP2 (normalizeWhitespace dec) = none →
      parseDateFromMedioPublicacion html = Except.ok none) ∧
    (parseDateFromMedioPublicacion
        (str "Medio de Publicación: Diario Oficial 48587 del 18 de enero de 2012") =
      Except.ok (some (str "2012-01-18"))) ∧
    (monthsES.all (fun pr =>
      (parseDateFromMedioPublicacion
          (str "Medio de Publicación: Diario Oficial 48587 del 18 de " ++
            pr.1 ++ str " de 2012") ==
        Except.ok (some (str "2012-" ++ pr.2 ++ str "-18"))) &&
      (parseDateFromMedioPublicacion
          (str "Medio de Publicación: Diario Oficial de " ++ pr.1 ++
            str " 18 de 2012") ==
        Except.ok (some (str "2012-" ++ pr.2 ++ str "-18")))) = true) := by
  have hbase : parseDateFromMedioPublicacion html =
      Except.ok (dateSearch (normalizeWhitespace dec)) := by
    unfold parseDateFromMedioPublicacion
    rw [hdec]
    rfl
  refine ⟨?_, ?_, ?_, ?_, ?_, by decide, by decide⟩
  · rw [hbase]; rfl
  · intro m dd y mm h1 h2
    rw [hbase]
    unfold dateSearch
    rw [h1]
    dsimp only
    rw [h2]
  · intro dd m y mm h1 h2 h3
    rw [hbase]
    unfold dateSearch
    rw [h1]
    dsimp only
    rw [h2]
    dsimp only
    rw [h3]
  · intro dd m y h1 h2 h3
    rw [hbase]
    unfold dateSearch
    rw [h1]
    dsimp only
    rw [h2]
    dsimp only
    rw [h3]
  · intro h1 h2
    rw [hbase]
    unfold dateSearch
    rw [h1]
    dsimp only
    rw [h2]

/-- C4 witness: the amended theorem applied to a concrete month-first
sentence. -/
theorem parseDate_amended_witness :
    parseDateFromMedioPublicacion
        (str "Medio de Publicación: Diario Oficial de febrero 7 de 1995") =
      Except.ok (some (str "1995" ++ ['-'] ++ str "02" ++ ['-'] ++
        padDay (str "7"))) :=
  (parseDate_amended
      (str "Medio de Publicación: Diario Oficial de febrero 7 de 1995")
      (str "Medio de Publicación: Diario Oficial de febrero 7 de 1995")
      (by decide)).2.1 (str "febrero") (str "7") (str "1995") (str "02")
    (by decide) (by decide)

/-- C10: whenever the first (month-before-day) pattern finds a match whose
month name is not in the lookup table, `parseDateFromMedioPublicacion`
returns no date immediately — the conclusion holds regardless of whether the
second (day-before-month) pattern would have matched. -/
theorem parseDate_unknown_month_short_circuit (html : Str) (dec : Str)
    (m dd y : Str) (hdec : decodeHtmlEntities (stripTags html) = Except.ok dec)
    (h1 : searchP1 (normalizeWhitespace dec) = some (m, dd, y))
    (h2 : List.lookup (lowerStr m) monthsES = none) :
    parseDateFromMedioPublicacion html = Except.ok none := by
  have hbase : parseDateFromMedioPublicacion html =
      Except.ok (dateSearch (normalizeWhitespace dec)) := by
    unfold parseDateFromMedioPublicacion
    rw [hdec]
    rfl
  rw [hbase]
  unfold dateSearch
  rw [h1]
  dsimp only
  rw [h2]

def c10Text : Str :=
  str "Medio de Publicación: Diario Oficial de floreal 9 de 2001. Medio de Publicación: Diario Oficial del 9 de mayo de 2001."

/-- C10 witness: a text whose first-pattern match names the unknown month
`floreal` while the same text carries a resolvable day-first date; the date
is still unset. -/
theorem parseDate_unknown_month_short_circuit_witness :
    searchP2 (normalizeWhitespace c10Text) =
      some (str "9", str "mayo", str "2001") ∧
    parseDateFromMedioPublicacion c10Text = Except.ok none :=
  ⟨by decide,
    parseDate_unknown_month_short_circuit c10Text c10Text (str "floreal")
      (str "9") (str "2001") (by decide) (by decide) (by decide)⟩

def resp429 : FetchResult :=
  ⟨429, str "Too Many Requests", str "text/html", str "u"⟩

def outs429 : List NetOutcome :=
  [NetOutcome.resp resp429, NetOutcome.resp resp429, NetOutcome.resp resp429,
   NetOutcome.resp resp429]

/-- C5: with one network outcome per attempt, `fetchWithRateLimit` retries
exactly through the leading retryable outcomes (HTTP 429, 5xx, transport
errors), capped by the retry budget, waiting `2^(attempt+1)` seconds (in
milliseconds) before each re-attempt, and surfaces the outcome of the last
attempt (a non-200 response, or the thrown error).  In particular, four
consecutive HTTP 429 responses exhaust the budget of `MAX_RETRIES = 3`
retries after waits of 2, 4 and 8 seconds, the fetch ends with status 429,
`ingestLaw` records a failed `IngestResult` with error `HTTP 429`, and the
orchestrator completes normally with that failure recorded. -/
theorem fetchWithRateLimit_retry_policy (m : Nat) (url : Str)
    (outs : List NetOutcome) (hlen : outs.length = m + 1) :
    fetchWithRateLimit m url outs =
      (finalizeOutcome url
         (outs.getD (min m (countLeadRetryable outs)) (NetOutcome.err [])),
       (List.range (min m (countLeadRetryable outs))).map
         (fun i => 2 ^ (i + 1) * 1000)) ∧
    (fetchWithRateLimit MAX_RETRIES (str "u") outs429 =
      (Except.ok resp429, [2000, 4000, 8000])) ∧
    (ingestLaw curated0 (fetchWithRateLimit MAX_RETRIES (str "u") outs429).1 =
      ⟨curated0, IngStatus.failed, none, none, none, some (str "HTTP 429")⟩) ∧
    (runIngestionWithRetries
        (fun law _ => ingestLaw law
          (fetchWithRateLimit MAX_RETRIES (str "u") outs429).1) [curated0] =
      [⟨curated0, IngStatus.failed, none, none, none,
        some (str "HTTP 429")⟩]) := by
  refine ⟨?_, by decide, by decide, by decide⟩
  have h := fetchLoop_closed url m outs 0 (Nat.zero_le m) (by omega)
  rw [fetchWithRateLimit, h]
  have hfun : (fun i => 2 ^ (0 + i + 1) * 1000) =
      (fun i : Nat => 2 ^ (i + 1) * 1000) := by
    funext i
    norm_num
  rw [Nat.sub_zero, hfun]

/-- C5 witness: one transient HTTP 503 followed by an HTTP 200 retries once
(after 2 seconds) and succeeds. -/
theorem fetchWithRateLimit_retry_policy_witness :
    fetchWithRateLimit 1 (str "u2")
        [NetOutcome.resp ⟨503, [], [], []⟩, NetOutcome.resp ⟨200, str "ok", [], []⟩] =
      (finalizeOutcome (str "u2")
         ([NetOutcome.resp ⟨503, [], [], []⟩,
           NetOutcome.resp ⟨200, str "ok", [], []⟩].getD
           (min 1 (countLeadRetryable
             [NetOutcome.resp ⟨503, [], [], []⟩,
              NetOutcome.resp ⟨200, str "ok", [], []⟩])) (NetOutcome.err [])),
       (List.range (min 1 (countLeadRetryable
           [NetOutcome.resp ⟨503, [], [], []⟩,
            NetOutcome.resp ⟨200, str "ok", [], []⟩]))).map
         (fun i => 2 ^ (i + 1) * 1000)) ∧
    (fetchWithRateLimit MAX_RETRIES (str "u") outs429 =
      (Except.ok resp429, [2000, 4000, 8000])) ∧
    (ingestLaw curated0 (fetchWithRateLimit MAX_RETRIES (str "u") outs429).1 =
      ⟨curated0, IngStatus.failed, none, none, none, some (str "HTTP 429")⟩) ∧
    (runIngestionWithRetries
        (fun law _ => ingestLaw law
          (fetchWithRateLimit MAX_RETRIES (str "u") outs429).1) [curated0] =
      [⟨curated0, IngStatus.failed, none, none, none,
        some (str "HTTP 429")⟩]) :=
  fetchWithRateLimit_retry_policy 1 (str "u2")
    [NetOutcome.resp ⟨503, [], [], []⟩, NetOutcome.resp ⟨200, str "ok", [], []⟩]
    (by decide)

/-- C8: with unique catalog ids, the orchestrator records for every entry the
outcome of its last attempt — the first successful round, or round 3 after
three failed rounds (the round cap) — and the process exit indicator is
nonzero exactly when some entry's final outcome is failed. -/
theorem orchestrator_rounds_and_exit (oracle : TargetLaw → Nat → IngestResult)
    (laws : List TargetLaw) (hnd : (laws.map idOf).Nodup) :
    runIngestionWithRetries oracle laws =
      laws.map (fun law => oracle law (finalRoundOf oracle law)) ∧
    (∀ law, 1 ≤ finalRoundOf oracle law ∧ finalRoundOf oracle law ≤ 3) ∧
    (mainExitCode oracle laws ≠ 0 ↔
      ∃ law ∈ laws, (oracle law (finalRoundOf oracle law)).status =
        IngStatus.failed) := by
  have hmain : runIngestionWithRetries oracle laws =
      laws.map (fun law => oracle law (finalRoundOf oracle law)) := by
    unfold runIngestionWithRetries
    dsimp only
    refine filterMap_eq_map_of_some laws ?_
    intro law hmem
    exact runIngestion_final_lookup oracle laws hnd law hmem
  refine ⟨hmain, ?_, ?_⟩
  · intro law
    unfold finalRoundOf
    split_ifs <;> omega
  · unfold mainExitCode
    rw [hmain]
    have hequiv : ((laws.map (fun law => oracle law (finalRoundOf oracle law))).any
        (fun r => r.status == IngStatus.failed) = true) ↔
        ∃ law ∈ laws, (oracle law (finalRoundOf oracle law)).status =
          IngStatus.failed := by
      simp [List.any_eq_true, List.mem_map]
    by_cases hany : ((laws.map (fun law => oracle law (finalRoundOf oracle law))).any
        (fun r => r.status == IngStatus.failed) = true)
    · rw [if_pos hany]
      constructor
      · intro _
        exact hequiv.mp hany
      · intro _
        exact one_ne_zero
    · rw [if_neg hany]
      constructor
      · intro h0
        exact absurd rfl h0
      · intro hex
        exact absurd (hequiv.mpr hex) hany

def c8LawA : TargetLaw :=
  { id := str "a8", fileName := str "a8.json", portalId := 1, docTypeId := 18,
    number := none, year := none, shortName := str "A8",
    status := LawStatus.in_force }

def c8LawB : TargetLaw :=
  { id := str "b8", fileName := str "b8.json", portalId := 2, docTypeId := 18,
    number := none, year := none, shortName := str "B8",
    status := LawStatus.in_force }

def c8Oracle (l : TargetLaw) (round : Nat) : IngestResult :=
  if l.id = str "a8" ∧ 2 ≤ round then ⟨l, IngStatus.ok, none, none, none, none⟩
  else if l.id = str "a8" then ⟨l, IngStatus.failed, none, none, none, none⟩
  else ⟨l, IngStatus.failed, none, none, none, none⟩

/-- C8 witness: entry `a8` fails round 1 and succeeds in round 2; entry `b8`
fails all three rounds; the exit indicator is nonzero. -/
theorem orchestrator_rounds_and_exit_witness :
    runIngestionWithRetries c8Oracle [c8LawA, c8LawB] =
      [c8LawA, c8LawB].map
        (fun law => c8Oracle law (finalRoundOf c8Oracle law)) ∧
    (∀ law, 1 ≤ finalRoundOf c8Oracle law ∧ finalRoundOf c8Oracle law ≤ 3) ∧
    (mainExitCode c8Oracle [c8LawA, c8LawB] ≠ 0 ↔
      ∃ law ∈ [c8LawA, c8LawB],
        (c8Oracle law (finalRoundOf c8Oracle law)).status =
          IngStatus.failed) :=
  orchestrator_rounds_and_exit c8Oracle [c8LawA, c8LawB] (by decide)

/-- C9 counterexample: a discovery fetch that returns HTTP 200 with a body
from which the expected document count cannot be parsed is not fatal —
`fetchFullLawIndex` succeeds with the count unset instead of aborting,
contradicting the claim that a missing count aborts the dynamic catalog. -/
theorem discovery_count_missing_not_fatal :
    parseSearchCount (str "<html>sin conteo</html>") = none ∧
    fetchFullLawIndex
        (Except.ok ⟨200, str "<html>sin conteo</html>", [], []⟩) =
      Except.ok ([], none) :=
  ⟨by decide, by decide⟩

/-- C9 amended: a failed discovery fetch is fatal to the discovery step — a
non-200 status raises the `No se pudo obtener índice` error and a thrown
fetch error propagates, aborting the dynamic catalog — while a 200 response
always yields a catalog, with `sourceCount` simply carrying the result of
`parseSearchCount` (unset when the count is missing).  The curated path
ignores the discovery fetch entirely. -/
theorem discovery_failure_semantics (f : FetchResult) (e : Str) :
    (f.status ≠ 200 → fetchFullLawIndex (Except.ok f) =
      Except.error (str "No se pudo obtener índice completo de leyes (HTTP " ++
        natStr f.status ++ str ")")) ∧
    (f.status = 200 → fetchFullLawIndex (Except.ok f) =
      Except.ok (extractLawIndexFromSearchHtml f.body,
        parseSearchCount f.body)) ∧
    (fetchFullLawIndex (Except.error e) = Except.error e) ∧
    (∀ (start : Nat) (limit : Option Nat)
        (discovery : Except Str FetchResult),
      buildLawList false start limit discovery =
        Except.ok ⟨applyLimit limit (TARGET_LAWS.drop start), false, none⟩) ∧
    (∀ (start : Nat) (limit : Option Nat),
      buildLawList true start limit (Except.error e) = Except.error e) := by
  refine ⟨?_, ?_, rfl, ?_, ?_⟩
  · intro h
    unfold fetchFullLawIndex
    dsimp only
    rw [if_pos h]
  · intro h
    unfold fetchFullLawIndex
    dsimp only
    rw [if_neg (show ¬f.status ≠ 200 from by rw [h]; intro hc; exact hc rfl)]
  · intro start limit discovery
    rfl
  · intro start limit
    rfl

/-- C9 witness: a discovery fetch answered with HTTP 503 aborts with the
index error. -/
theorem discovery_failure_semantics_witness :
    fetchFullLawIndex (Except.ok ⟨503, str "<html></html>", [], []⟩) =
      Except.error (str "No se pudo obtener índice completo de leyes (HTTP " ++
        natStr 503 ++ str ")") :=
  (discovery_failure_semantics ⟨503, str "<html></html>", [], []⟩ []).1
    (by decide)
